import Mathlib

/-!
Verification of the git-cdn core against its specification.

Byte strings are modelled as lists of naturals (each < 256 in practice);
Python machine behaviour (hash truncation, modular 32-bit arithmetic in
SHA-256) is made explicit with `% 2^32`.
-/

namespace GitCdn

/-- Byte strings, as in Python `bytes`. -/
abbrev Bytes := List Nat

/-- ASCII encoding of a Lean string literal (all our literals are ASCII). -/
def asciiBytes (s : String) : Bytes := s.data.map Char.toNat

/-- Python `bytes` comparison: lexicographic, element-wise numeric. -/
def bytesLe : Bytes → Bytes → Bool
  | [], _ => true
  | _ :: _, [] => false
  | a :: as, b :: bs => if a < b then true else if a > b then false else bytesLe as bs

/-- Insertion into a sorted list of byte strings (used to model Python `sorted`). -/
def sortedInsert (x : Bytes) : List Bytes → List Bytes
  | [] => [x]
  | y :: ys => if bytesLe x y then x :: y :: ys else y :: sortedInsert x ys

/-- Python `sorted` over byte strings (insertion sort; inputs are duplicate-free sets). -/
def sortBytes : List Bytes → List Bytes
  | [] => []
  | x :: xs => sortedInsert x (sortBytes xs)

/-- Python `set.add`: append if not already present (iteration order is irrelevant
because every consumer sorts first). -/
def setAdd (s : List Bytes) (x : Bytes) : List Bytes :=
  if x ∈ s then s else s ++ [x]

/-- ASCII lower-casing of a byte, as Python `bytes.lower` does per byte. -/
def lowerByte (b : Nat) : Nat := if 65 ≤ b ∧ b ≤ 90 then b + 32 else b

/-- Python `bytes.lower()`. -/
def lowerBytes (bs : Bytes) : Bytes := bs.map lowerByte

/-- Python `bytes.rstrip(b"\n")`: drop every trailing newline byte. -/
def rstripLf (bs : Bytes) : Bytes :=
  (bs.reverse.dropWhile (fun b => b = 10)).reverse

/-- Python `bytes.split(b" ")`: split on every single space, keeping empty pieces. -/
def splitSpace (bs : Bytes) : List Bytes :=
  match bs with
  | [] => [[]]
  | b :: rest =>
    match splitSpace rest with
    | [] => [[]]
    | seg :: segs => if b = 32 then [] :: seg :: segs else (b :: seg) :: segs

/-- Python `sub in bs`: contiguous sub-sequence test for byte strings. -/
def bytesContains (bs sub : Bytes) : Bool :=
  decide (sub <+: bs) || (match bs with
    | [] => false
    | _ :: rest => bytesContains rest sub)

/-! ### SHA-256, executable, over byte lists

Straight transcription of FIPS 180-4, with 32-bit words as `Nat % 2^32`.
Used by both upload-pack input parsers for the request fingerprint.
-/

/-- 2^32, the word modulus of SHA-256. -/
def w32 : Nat := 4294967296

/-- Addition modulo 2^32. -/
def add32 (a b : Nat) : Nat := (a + b) % w32

/-- Right rotation of a 32-bit word. -/
def rotr32 (n x : Nat) : Nat :=
  ((x >>> n) ||| (x <<< (32 - n))) % w32

/-- SHA-256 small sigma 0. -/
def ssig0 (x : Nat) : Nat := (rotr32 7 x) ^^^ (rotr32 18 x) ^^^ (x >>> 3)

/-- SHA-256 small sigma 1. -/
def ssig1 (x : Nat) : Nat := (rotr32 17 x) ^^^ (rotr32 19 x) ^^^ (x >>> 10)

/-- SHA-256 big sigma 0. -/
def bsig0 (x : Nat) : Nat := (rotr32 2 x) ^^^ (rotr32 13 x) ^^^ (rotr32 22 x)

/-- SHA-256 big sigma 1. -/
def bsig1 (x : Nat) : Nat := (rotr32 6 x) ^^^ (rotr32 11 x) ^^^ (rotr32 25 x)

/-- SHA-256 choice function. -/
def ch32 (x y z : Nat) : Nat := (x &&& y) ^^^ ((x ^^^ (w32 - 1)) &&& z)

/-- SHA-256 majority function. -/
def maj32 (x y z : Nat) : Nat := (x &&& y) ^^^ (x &&& z) ^^^ (y &&& z)

/-- SHA-256 round constants (FIPS 180-4 section 4.2.2, in decimal). -/
def sha256K : List Nat :=
  [1116352408, 1899447441, 3049323471, 3921009573, 961987163, 1508970993,
   2453635748, 2870763221, 3624381080, 310598401, 607225278, 1426881987,
   1925078388, 2162078206, 2614888103, 3248222580, 3835390401, 4022224774,
   264347078, 604807628, 770255983, 1249150122, 1555081692, 1996064986,
   2554220882, 2821834349, 2952996808, 3210313671, 3336571891, 3584528711,
   113926993, 338241895, 666307205, 773529912, 1294757372, 1396182291,
   1695183700, 1986661051, 2177026350, 2456956037, 2730485921, 2820302411,
   3259730800, 3345764771, 3516065817, 3600352804, 4094571909, 275423344,
   430227734, 506948616, 659060556, 883997877, 958139571, 1322822218,
   1537002063, 1747873779, 1955562222, 2024104815, 2227730452, 2361852424,
   2428436474, 2756734187, 3204031479, 3329325298]

/-- SHA-256 initial hash state (FIPS 180-4 section 5.3.3, in decimal). -/
def sha256H0 : List Nat :=
  [1779033703, 3144134277, 1013904242, 2773480762,
   1359893119, 2600822924, 528734635, 1541459225]

/-- Message padding: append 0x80, zero bytes to 56 mod 64, then the bit length
big-endian on 8 bytes. -/
def sha256Pad (msg : Bytes) : Bytes :=
  let n := msg.length
  let zeros := (64 + 56 - (n + 1) % 64) % 64
  let bitLen := 8 * n
  msg ++ [0x80] ++ List.replicate zeros 0 ++
    [(bitLen >>> 56) % 256, (bitLen >>> 48) % 256, (bitLen >>> 40) % 256,
     (bitLen >>> 32) % 256, (bitLen >>> 24) % 256, (bitLen >>> 16) % 256,
     (bitLen >>> 8) % 256, bitLen % 256]

/-- Split a list into chunks of size `k + 1`.  Structural recursion on a fuel
bound; each step consumes at least one element, so any fuel of at least the
list length is ample. -/
def chunksOf1F (fuel k : Nat) (l : List Nat) : List (List Nat) :=
  match fuel, l with
  | _, [] => []
  | 0, _ => []
  | fuel + 1, x :: xs => (x :: xs.take k) :: chunksOf1F fuel k (xs.drop k)

/-- Big-endian 4-byte groups of a 64-byte block into 16 words. -/
def blockWords : List Nat → List Nat
  | b0 :: b1 :: b2 :: b3 :: rest =>
    (((b0 * 256 + b1) * 256 + b2) * 256 + b3) :: blockWords rest
  | _ => []

/-- Extend 16 words to the 64-entry message schedule. -/
def extendWords (ws : List Nat) (fuel : Nat) : List Nat :=
  match fuel with
  | 0 => ws
  | fuel + 1 =>
    let i := ws.length
    let wNew := add32 (add32 (ssig1 (ws.getD (i - 2) 0)) (ws.getD (i - 7) 0))
                      (add32 (ssig0 (ws.getD (i - 15) 0)) (ws.getD (i - 16) 0))
    extendWords (ws ++ [wNew]) fuel

/-- One round of the SHA-256 compression function. -/
def sha256Round (st : List Nat) (kw : Nat × Nat) : List Nat :=
  match st with
  | [a, b, c, d, e, f, g, h] =>
    let t1 := add32 (add32 (add32 h (bsig1 e)) (add32 (ch32 e f g) kw.1)) kw.2
    let t2 := add32 (bsig0 a) (maj32 a b c)
    [add32 t1 t2, a, b, c, add32 d t1, e, f, g]
  | st => st

/-- Process one 64-byte block. -/
def sha256Block (h : List Nat) (block : List Nat) : List Nat :=
  let ws := extendWords (blockWords block) 48
  let st := (sha256K.zip ws).foldl sha256Round h
  (h.zip st).map (fun p => add32 p.1 p.2)

/-- The SHA-256 digest of a byte string, as 8 words. -/
def sha256Words (msg : Bytes) : List Nat :=
  (chunksOf1F (sha256Pad msg).length 63 (sha256Pad msg)).foldl sha256Block sha256H0

/-- Lower-case hex digit. -/
def hexChar (n : Nat) : Char :=
  if n < 10 then Char.ofNat (48 + n) else Char.ofNat (87 + n)

/-- A 32-bit word as 8 lower-case hex characters. -/
def wordHex (x : Nat) : List Char :=
  [hexChar ((x >>> 28) % 16), hexChar ((x >>> 24) % 16), hexChar ((x >>> 20) % 16),
   hexChar ((x >>> 16) % 16), hexChar ((x >>> 12) % 16), hexChar ((x >>> 8) % 16),
   hexChar ((x >>> 4) % 16), hexChar (x % 16)]

/-- Python `hashlib.sha256(msg).hexdigest()`. -/
def sha256hex (msg : Bytes) : String :=
  String.mk ((sha256Words msg).flatMap wordHex)

/-! ### UTF-8 validity

`bytes.decode()` (UTF-8, strict) succeeds exactly on valid UTF-8; the parsers
call it on slices of the input and, in their error handlers, on the whole input.
-/

/-- Continuation byte test (0x80..0xBF). -/
def utf8Cont (b : Nat) : Bool := 128 ≤ b ∧ b ≤ 191

/-- UTF-8 validity of a byte string (RFC 3629 table). -/
def validUtf8 : Bytes → Bool
  | [] => true
  | b :: rest =>
    if b ≤ 127 then validUtf8 rest
    else if 194 ≤ b ∧ b ≤ 223 then
      match rest with
      | c1 :: r => utf8Cont c1 && validUtf8 r
      | _ => false
    else if b = 224 then
      match rest with
      | c1 :: c2 :: r => (160 ≤ c1 ∧ c1 ≤ 191 : Bool) && utf8Cont c2 && validUtf8 r
      | _ => false
    else if 225 ≤ b ∧ b ≤ 236 then
      match rest with
      | c1 :: c2 :: r => utf8Cont c1 && utf8Cont c2 && validUtf8 r
      | _ => false
    else if b = 237 then
      match rest with
      | c1 :: c2 :: r => (128 ≤ c1 ∧ c1 ≤ 159 : Bool) && utf8Cont c2 && validUtf8 r
      | _ => false
    else if 238 ≤ b ∧ b ≤ 239 then
      match rest with
      | c1 :: c2 :: r => utf8Cont c1 && utf8Cont c2 && validUtf8 r
      | _ => false
    else if b = 240 then
      match rest with
      | c1 :: c2 :: c3 :: r =>
        (144 ≤ c1 ∧ c1 ≤ 191 : Bool) && utf8Cont c2 && utf8Cont c3 && validUtf8 r
      | _ => false
    else if 241 ≤ b ∧ b ≤ 243 then
      match rest with
      | c1 :: c2 :: c3 :: r => utf8Cont c1 && utf8Cont c2 && utf8Cont c3 && validUtf8 r
      | _ => false
    else if b = 244 then
      match rest with
      | c1 :: c2 :: c3 :: r =>
        (128 ≤ c1 ∧ c1 ≤ 143 : Bool) && utf8Cont c2 && utf8Cont c3 && validUtf8 r
      | _ => false
    else false

/-! ### pkt-line decoding (`packet_line.PacketLineParser`)

The header is read with Python `int(header.decode(), 16)`.  We model the ASCII
behaviour of `int(_, 16)`: optional surrounding ASCII whitespace, optional
sign, optional `0x`/`0X` prefix, hex digits with single interior underscores.
(Exotic non-ASCII numerals accepted by CPython are out of scope.)
-/

/-- Value of an ASCII hex digit byte. -/
def hexVal (b : Nat) : Option Nat :=
  if 48 ≤ b ∧ b ≤ 57 then some (b - 48)
  else if 97 ≤ b ∧ b ≤ 102 then some (b - 87)
  else if 65 ≤ b ∧ b ≤ 70 then some (b - 55)
  else none

/-- Hex digits with single interior underscores, continuing from `acc`. -/
def hexRunAux (acc : Nat) : Bytes → Option Nat
  | [] => some acc
  | 95 :: b :: rest =>
    match hexVal b with
    | some v => hexRunAux (16 * acc + v) rest
    | none => none
  | b :: rest =>
    match hexVal b with
    | some v => hexRunAux (16 * acc + v) rest
    | none => none

/-- A non-empty run of hex digits with single interior underscores. -/
def hexRun : Bytes → Option Nat
  | [] => none
  | 95 :: _ => none
  | b :: rest =>
    match hexVal b with
    | some v => hexRunAux v rest
    | none => none

/-- ASCII whitespace accepted by Python `int()`. -/
def isPySpace (b : Nat) : Bool := b = 9 ∨ b = 10 ∨ b = 11 ∨ b = 12 ∨ b = 13 ∨ b = 32

/-- Digit part after the optional sign: optional `0x` prefix then digits. -/
def pyHexCore (bs : Bytes) : Option Nat :=
  match bs with
  | 48 :: x :: rest =>
    if x = 120 ∨ x = 88 then
      match rest with
      | 95 :: r => hexRun r
      | r => hexRun r
    else hexRun bs
  | _ => hexRun bs

/-- Python `int(s, 16)` on ASCII bytes, `none` on `ValueError`. -/
def pyIntHex (bs : Bytes) : Option Int :=
  let t := ((bs.dropWhile (fun b => isPySpace b)).reverse.dropWhile
    (fun b => isPySpace b)).reverse
  match t with
  | 43 :: rest => (pyHexCore rest).map (fun n => (n : Int))
  | 45 :: rest => (pyHexCore rest).map (fun n => -(n : Int))
  | rest => (pyHexCore rest).map (fun n => (n : Int))

/-- A decoded pkt-line item, as yielded by `PacketLineParser.__next__`. -/
inductive Pkt where
  | payload (p : Bytes)
  | flush
  | delim
  | respEnd
deriving DecidableEq, Repr

/-- One step of the iterator: stop, yield an item with the next index, or raise. -/
inductive PStep where
  | stop
  | item (pkt : Pkt) (next : Nat)
  | err
deriving DecidableEq, Repr

/-- `PacketLineParser.__next__` at buffer position `i`.
Raises (`err`) when the header does not parse as hex, when the declared length
runs past the buffer, or when the header value is below 4 but not 0, 1 or 2
(the special-packet dictionary lookup raises `KeyError`). -/
def nextPkt (input : Bytes) (i : Nat) : PStep :=
  if i + 4 > input.length then .stop
  else
    match pyIntHex ((input.drop i).take 4) with
    | none => .err
    | some h =>
      if 4 ≤ h then
        let len := h.toNat
        if i + len > input.length then .err
        else .item (.payload ((input.drop (i + 4)).take (len - 4))) (i + len)
      else if h = 0 then .item .flush (i + 4)
      else if h = 1 then .item .delim (i + 4)
      else if h = 2 then .item .respEnd (i + 4)
      else .err

/-- Run the iterator to exhaustion from position `i`.  Returns the list of
items and whether trailing bytes (fewer than 4) remain unconsumed.
Structural recursion on fuel; every yielded item advances the position by at
least 4, so a fuel of the buffer length plus one is ample. -/
def pktsFromF (fuel : Nat) (input : Bytes) (i : Nat) : Except Unit (List Pkt × Bool) :=
  match fuel with
  | 0 => .error ()
  | fuel + 1 =>
    match nextPkt input i with
    | .stop => .ok ([], decide (i < input.length))
    | .err => .error ()
    | .item p j =>
      match pktsFromF fuel input j with
      | .ok (ps, leftover) => .ok (p :: ps, leftover)
      | .error e => .error e

/-- Full decoding of a request body into pkt-line items. -/
def packetize (input : Bytes) : Except Unit (List Pkt × Bool) :=
  pktsFromF (input.length + 1) input 0

/-! ### Upload-pack input parser, protocol v1 (`upload_pack_input_parser.py`) -/

/-- A capability value: either bare (`True` in Python) or `=`-assigned bytes. -/
inductive CapV where
  | flag
  | val (v : Bytes)
deriving DecidableEq, Repr

/-- Association list standing in for a Python dict (insertion order kept,
key overwritten in place; every consumer sorts keys, so order is irrelevant). -/
def dictInsert (d : List (Bytes × CapV)) (k : Bytes) (v : CapV) : List (Bytes × CapV) :=
  match d with
  | [] => [(k, v)]
  | (k0, v0) :: rest =>
    if k0 = k then (k0, v) :: rest else (k0, v0) :: dictInsert rest k v

/-- Python `k in dict`. -/
def dictMem (d : List (Bytes × CapV)) (k : Bytes) : Bool :=
  match d with
  | [] => false
  | (k0, _) :: rest => k0 = k || dictMem rest k

/-- Python `dict.get`. -/
def dictGet (d : List (Bytes × CapV)) (k : Bytes) : Option CapV :=
  match d with
  | [] => none
  | (k0, v0) :: rest => if k0 = k then some v0 else dictGet rest k

/-- Dict keys, in insertion order. -/
def dictKeys (d : List (Bytes × CapV)) : List Bytes := d.map Prod.fst

/-- The v1 `GIT_CAPS` allow-list. -/
def gitCapsV1 : List Bytes :=
  [asciiBytes "ofs-delta", asciiBytes "side-band-64k", asciiBytes "multi_ack",
   asciiBytes "multi_ack_detailed", asciiBytes "no-done", asciiBytes "thin-pack",
   asciiBytes "side-band", asciiBytes "agent", asciiBytes "symref",
   asciiBytes "shallow", asciiBytes "deepen-since", asciiBytes "deepen-not",
   asciiBytes "deepen-relative", asciiBytes "no-progress", asciiBytes "include-tag",
   asciiBytes "report-status", asciiBytes "delete-refs", asciiBytes "quiet",
   asciiBytes "atomic", asciiBytes "push-options", asciiBytes "allow-tip-sha1-in-want",
   asciiBytes "allow-reachable-sha1-in-want", asciiBytes "push-cert", asciiBytes "filter"]

/-- Split a capability token at the first `=`, as `cap.split(b"=", 1)`. -/
def splitEq1 (bs : Bytes) : Bytes × Option Bytes :=
  match bs with
  | [] => ([], none)
  | 61 :: rest => ([], some rest)
  | b :: rest =>
    let (k, v) := splitEq1 rest
    (b :: k, v)

/-- Parser state shared by both protocol versions. -/
structure ReqState where
  wants : List Bytes := []
  haves : List Bytes := []
  caps : List (Bytes × CapV) := []
  depth : Bool := false
  depthLines : List Bytes := []
  done : Bool := false
deriving DecidableEq, Repr

/-- Capability-list parsing in `parse_header` (tokens after `want <oid>`);
unknown capability names are skipped. -/
def parseCapTokens (toks : List Bytes) : List (Bytes × CapV) :=
  toks.foldl
    (fun d cap =>
      let kv := splitEq1 cap
      let k := kv.1
      let v := match kv.2 with
        | some v => CapV.val v
        | none => CapV.flag
      if k ∈ gitCapsV1 then dictInsert d k v else d)
    []

/-- `UploadPackInputParser.parse_header`: consume the first pkt-line.
Exceptions (`StopIteration` on empty input, failed asserts, missing fields,
marker objects without `__getitem__`) surface as `none` and are caught by the
constructor. -/
def parseHeaderV1 : List Pkt → Option (ReqState × List Pkt)
  | [] => none
  | .flush :: rest => some ({}, rest)
  | .delim :: _ => none
  | .respEnd :: _ => none
  | .payload p :: rest =>
    match p.getLast? with
    | some 10 =>
      let line := p.dropLast
      let parts := splitSpace line
      if lowerBytes (parts.headD []) = asciiBytes "want" then
        match parts.get? 1 with
        | none => none
        | some w =>
          some ({ wants := [w], caps := parseCapTokens (parts.drop 2) }, rest)
      else none
    | _ => none

/-- One pkt-line of `UploadPackInputParser.parse_lists`; the four keyword
checks are independent `if`s in the source. -/
def parseListLineV1 (st : ReqState) (line : Bytes) : Option ReqState :=
  let parts := splitSpace line
  let w0 := lowerBytes (parts.headD [])
  let step1 : Option ReqState :=
    if w0 = asciiBytes "want" then
      match parts.get? 1 with
      | none => none
      | some x => some { st with wants := setAdd st.wants x }
    else some st
  match step1 with
  | none => none
  | some st =>
    let st := if w0 = asciiBytes "done" then { st with done := true } else st
    let step2 : Option ReqState :=
      if w0 = asciiBytes "have" then
        match parts.get? 1 with
        | none => none
        | some x => some { st with haves := setAdd st.haves x }
      else some st
    match step2 with
    | none => none
    | some st =>
      if bytesContains w0 (asciiBytes "deep") then
        some { st with depth := true, depthLines := st.depthLines ++ [line] }
      else some st

/-- `UploadPackInputParser.parse_lists` over the remaining pkt-lines. -/
def parseListsV1 (st : ReqState) : List Pkt → Option ReqState
  | [] => some st
  | .flush :: rest => parseListsV1 st rest
  | .delim :: _ => none
  | .respEnd :: _ => none
  | .payload p :: rest =>
    match parseListLineV1 st (rstripLf p) with
    | none => none
    | some st => parseListsV1 st rest

/-- The byte string accumulated by the v1 fingerprint `hash.update` calls:
tag `caps` + sorted capability names, `haves` + sorted haves, `wants` +
sorted wants, sorted depth lines, and `done` iff done.  The v1 code hashes
no `args` tag and only capability names, never their values. -/
def v1HashInput (st : ReqState) : Bytes :=
  asciiBytes "caps" ++ (sortBytes (dictKeys st.caps)).flatten
    ++ asciiBytes "haves" ++ (sortBytes st.haves).flatten
    ++ asciiBytes "wants" ++ (sortBytes st.wants).flatten
    ++ (sortBytes st.depthLines).flatten
    ++ (if st.done then asciiBytes "done" else [])

/-- The request fingerprint: a SHA-256 hex digest, or a fresh random UUID on
parse failure. -/
inductive HashV where
  | sha (s : String)
  | rand
deriving DecidableEq, Repr

/-- The attributes of a fully constructed `UploadPackInputParser` that later
stages consult. -/
structure V1Result where
  wants : List Bytes := []
  haves : List Bytes := []
  caps : List (Bytes × CapV) := []
  depth : Bool := false
  depthLines : List Bytes := []
  done : Bool := false
  filter : Bool := false
  parseError : Bool := true
  hash : HashV := .rand
deriving DecidableEq, Repr

/-- Success of the `as_dict` construction: the 8-byte truncations of haves and
wants must decode as UTF-8, and the `agent` capability value must be decodable
bytes (a bare `agent` capability stores Python `True`, whose `.decode()`
raises). -/
def asDictOkV1 (st : ReqState) : Bool :=
  st.haves.all (fun x => validUtf8 (x.take 8))
  && st.wants.all (fun x => validUtf8 (x.take 8))
  && (match dictGet st.caps (asciiBytes "agent") with
      | none => true
      | some .flag => false
      | some (.val v) => validUtf8 v)

/-- The `try` body of `UploadPackInputParser.__init__`: packet decoding,
header and list parsing, fingerprint hashing, `as_dict` construction. -/
def v1TryBody (input : Bytes) : Option V1Result :=
  match packetize input with
  | .error _ => none
  | .ok (pkts, _) =>
    match parseHeaderV1 pkts with
    | none => none
    | some (st, rest) =>
      match parseListsV1 st rest with
      | none => none
      | some st =>
        if asDictOkV1 st then
          some { wants := st.wants, haves := st.haves, caps := st.caps,
                 depth := st.depth, depthLines := st.depthLines, done := st.done,
                 filter := dictMem st.caps (asciiBytes "filter"),
                 parseError := false,
                 hash := .sha (sha256hex (v1HashInput st)) }
        else none

/-- `UploadPackInputParser.__init__`.  Any exception in the body is caught; the
handler logs `input.decode()` (which itself raises if the input is not valid
UTF-8, the only way the constructor can propagate an exception) and installs a
random fingerprint.  On the failure path only `parse_error` and `hash` are
meaningful to callers; partially filled sets are not modelled. -/
def uploadPackV1 (input : Bytes) : Except Unit V1Result :=
  match v1TryBody input with
  | some r => .ok r
  | none => if validUtf8 input then .ok {} else .error ()

/-! ### Upload-pack input parser, protocol v2 (`upload_pack_input_parser_v2.py`) -/

/-- The `command` attribute: `b""` initially, `None` after a leading flush,
else the (lower-cased) value, or Python `True` for a bare `command` token. -/
inductive CmdV where
  | unset
  | noneCmd
  | val (c : Bytes)
  | flagTrue
deriving DecidableEq, Repr

/-- Split at the first space, as `line.split(b" ", 1)`. -/
def splitSp1 (bs : Bytes) : Bytes × Option Bytes :=
  match bs with
  | [] => ([], none)
  | 32 :: rest => ([], some rest)
  | b :: rest =>
    let (k, v) := splitSp1 rest
    (b :: k, v)

/-- Loop body of `UploadPackInputParserV2.parse_caps` (after the first packet
has been checked not to be a flush).  The two-commands error fires only when
the stored command differs from `b""`, so a `command=` line with an empty
value leaves the command reassignable. -/
def goCapsV2 (cmd : CmdV) (caps : List (Bytes × CapV)) :
    List Pkt → Option (CmdV × List (Bytes × CapV) × List Pkt)
  | [] => none
  | .flush :: rest => some (cmd, caps, rest)
  | .delim :: rest => some (cmd, caps, rest)
  | .respEnd :: _ => none
  | .payload p :: rest =>
    let line := lowerBytes (rstripLf p)
    let kv := splitEq1 line
    let k := kv.1
    if k = asciiBytes "command" then
      if cmd = .unset ∨ cmd = .val [] then
        goCapsV2 (match kv.2 with | some v => .val v | none => .flagTrue) caps rest
      else none
    else
      let v := match kv.2 with | some v => CapV.val v | none => CapV.flag
      goCapsV2 cmd (dictInsert caps k v) rest

/-- `UploadPackInputParserV2.parse_caps`. -/
def parseCapsV2 : List Pkt → Option (CmdV × List (Bytes × CapV) × List Pkt)
  | [] => none
  | .flush :: rest => some (.noneCmd, [], rest)
  | pkts => goCapsV2 .unset [] pkts

/-- Loop of `UploadPackInputParserV2.parse_args`; `line` is lower-cased before
being split, so v2 depth lines are stored lower-cased. -/
def goArgsV2 (st : ReqState) (args : List (Bytes × CapV)) :
    List Pkt → Option (ReqState × List (Bytes × CapV) × List Pkt)
  | [] => none
  | .flush :: rest => some (st, args, rest)
  | .delim :: _ => none
  | .respEnd :: _ => none
  | .payload p :: rest =>
    let line := lowerBytes (rstripLf p)
    let kv := splitSp1 line
    let k := kv.1
    match kv.2 with
    | some v =>
      if k = asciiBytes "have" then
        goArgsV2 { st with haves := setAdd st.haves v } args rest
      else if k = asciiBytes "want" then
        goArgsV2 { st with wants := setAdd st.wants v } args rest
      else if bytesContains k (asciiBytes "deep") then
        goArgsV2 { st with depth := true, depthLines := st.depthLines ++ [line] }
          args rest
      else goArgsV2 st (dictInsert args k (CapV.val v)) rest
    | none =>
      let st := if k = asciiBytes "done" then { st with done := true } else st
      goArgsV2 st (dictInsert args k CapV.flag) rest

/-- The byte string accumulated by `UploadPackInputParserV2.hash_update`:
like v1 but with the `args` tag and sorted argument names between the wants
and the depth lines. -/
def v2HashInput (st : ReqState) (args : List (Bytes × CapV)) : Bytes :=
  asciiBytes "caps" ++ (sortBytes (dictKeys st.caps)).flatten
    ++ asciiBytes "haves" ++ (sortBytes st.haves).flatten
    ++ asciiBytes "wants" ++ (sortBytes st.wants).flatten
    ++ asciiBytes "args" ++ (sortBytes (dictKeys args)).flatten
    ++ (sortBytes st.depthLines).flatten
    ++ (if st.done then asciiBytes "done" else [])

/-- The attributes of a fully constructed `UploadPackInputParserV2`.
`hash` is `none` when the attribute is never assigned (proxied or unknown
commands, which return early with `parse_error` still true). -/
structure V2Result where
  command : CmdV := .unset
  wants : List Bytes := []
  haves : List Bytes := []
  caps : List (Bytes × CapV) := []
  args : List (Bytes × CapV) := []
  depth : Bool := false
  depthLines : List Bytes := []
  done : Bool := false
  filter : Bool := false
  parseError : Bool := true
  hash : Option HashV := none
deriving DecidableEq, Repr

/-- Python `b" ".join`. -/
def joinSpace (xs : List Bytes) : Bytes := List.intercalate [32] xs

/-- Success of the v2 `as_dict` construction (UTF-8 decoding of joined caps,
truncated haves and wants, joined args, and the agent value). -/
def asDictOkV2 (st : ReqState) (args : List (Bytes × CapV)) : Bool :=
  validUtf8 (joinSpace (sortBytes (dictKeys st.caps)))
  && validUtf8 (joinSpace ((sortBytes st.haves).map (fun x => x.take 8)))
  && validUtf8 (joinSpace ((sortBytes st.wants).map (fun x => x.take 8)))
  && validUtf8 (joinSpace (sortBytes (dictKeys args)))
  && (match dictGet st.caps (asciiBytes "agent") with
      | none => true
      | some .flag => false
      | some (.val v) => validUtf8 v)

/-- The `try` body of `UploadPackInputParserV2.__init__`.  `none` models an
exception reaching the `except` handler; a command equal to `b""` after
`parse_caps` (never assigned, or assigned an empty value) raises the
"Missing keyword" error, while proxied and unknown commands return normally
with `parse_error` left true and no `hash` attribute. -/
def v2TryBody (input : Bytes) : Option V2Result :=
  match packetize input with
  | .error _ => none
  | .ok (pkts, leftover) =>
    match parseCapsV2 pkts with
    | none => none
    | some (cmd, caps, rest) =>
      match cmd with
      | .unset => none
      | .noneCmd => some { command := cmd, caps := caps }
      | .flagTrue => some { command := cmd, caps := caps }
      | .val c =>
        if c = [] then none
        else if c = asciiBytes "ls-refs" ∨ c = asciiBytes "object-info" then
          some { command := cmd, caps := caps }
        else if c ≠ asciiBytes "fetch" then
          some { command := cmd, caps := caps }
        else
          match goArgsV2 {} [] rest with
          | none => none
          | some (st, args, rest2) =>
            if rest2 ≠ [] ∨ leftover then none
            else
              if asDictOkV2 { st with caps := caps } args then
                some { command := cmd, wants := st.wants, haves := st.haves,
                       caps := caps, args := args, depth := st.depth,
                       depthLines := st.depthLines, done := st.done,
                       filter := dictMem args (asciiBytes "filter"),
                       parseError := false,
                       hash := some (.sha (sha256hex
                         (v2HashInput { st with caps := caps } args))) }
              else none

/-- `UploadPackInputParserV2.__init__`; the `except` handler mirrors v1. -/
def uploadPackV2 (input : Bytes) : Except Unit V2Result :=
  match v2TryBody input with
  | some r => .ok r
  | none =>
    if validUtf8 input then .ok { parseError := true, hash := some .rand }
    else .error ()

/-! ### Cacheability (`can_be_cached`, v1 and v2) -/

/-- Python truthiness test used for `PACK_CACHE_MULTI` and `PACK_CACHE_DEPTH`:
`os.getenv(name, "false").lower() in ["true", "1"]` (environment values are
modelled as ASCII byte strings). -/
def envTruthy (v : Option Bytes) : Bool :=
  lowerBytes (v.getD (asciiBytes "false")) = asciiBytes "true"
    ∨ lowerBytes (v.getD (asciiBytes "false")) = asciiBytes "1"

/-- `UploadPackInputParser.can_be_cached` (protocol v1). -/
def canBeCachedV1 (r : V1Result) (multiEnv depthEnv : Option Bytes) : Bool :=
  if r.haves.length ≠ 0 ∨ ¬r.done then false
  else if ¬(dictMem r.caps (asciiBytes "side-band")
            ∨ dictMem r.caps (asciiBytes "side-band-64k")) then false
  else if r.filter then false
  else if ¬envTruthy multiEnv ∧ r.wants.length > 1 then false
  else if ¬envTruthy depthEnv ∧ r.depth then false
  else true

/-- `UploadPackInputParserV2.can_be_cached` (protocol v2, no side-band test). -/
def canBeCachedV2 (r : V2Result) (multiEnv depthEnv : Option Bytes) : Bool :=
  if r.haves.length ≠ 0 ∨ ¬r.done then false
  else if r.filter then false
  else if ¬envTruthy multiEnv ∧ r.wants.length > 1 then false
  else if ¬envTruthy depthEnv ∧ r.depth then false
  else true

/-! ### Pack cache entry validity (`PackCache.exists`) -/

/-- On-disk state of a cache entry: absent, or present with its bytes. -/
abbrev FileState := Option Bytes

/-- `PackCache.exists`.  `f.seek(-4, SEEK_END)` on a file of size 1 to 3
raises `OSError(EINVAL)` (negative target offset), modelled as `error`. -/
def packCacheExists (file : FileState) : Except Unit Bool :=
  match file with
  | none => .ok false
  | some bs =>
    if bs.length > 0 then
      if bs.length < 4 then .error ()
      else .ok (decide (bs.drop (bs.length - 4) = asciiBytes "0000"))
    else .ok false

/-! ### Streaming chunk parser (`packet_line.PacketLineChunkParser`) -/

/-- Hex rendering with Python `"\x7b:04x\x7d".format`: lower-case, left-padded
to width 4. -/
def natToHex4 (n : Nat) : Bytes :=
  let digits :=
    (Nat.toDigits 16 n).map (fun c => c.toNat)
  List.replicate (4 - digits.length) 48 ++ digits

/-- `packet_line.to_packet(data, channel)`; a channel of `None` (and the
falsy channel 0) adds no channel byte. -/
def toPacket (data : Bytes) (channel : Option Nat) : Bytes :=
  let chan : Bytes := match channel with
    | some c => if c ≠ 0 then [c] else []
    | none => []
  natToHex4 (4 + chan.length + data.length) ++ chan ++ data

/-- The synthetic progress packet inserted in place of the first sideband-2
packet of a cached stream. -/
def synthPkt : Bytes := toPacket (asciiBytes "git-cdn, using cached pack\n") (some 2)

/-- `PacketLineChunkParser.process_chunks`, fused over a byte stream whose
`read` is `readexactly`-style: `firstSb` is the `first_sideband` flag and
`endflush` records whether the previous packet was a flush.  Any raised
exception (short header, bad hex, length below 5, truncated payload, missing
final flush) is `error`. -/
def processChunksGo (fuel : Nat) (buf : Bytes) (firstSb : Bool)
    (endflush : Bool) : Except Unit (List Bytes) :=
  match fuel with
  | 0 => .error ()
  | fuel + 1 =>
    match buf with
    | [] => if endflush then .ok [] else .error ()
    | _ :: _ =>
      if buf.length < 4 then .error ()
      else
        match pyIntHex (buf.take 4) with
        | none => .error ()
        | some h =>
          if h = 0 then
            (processChunksGo fuel (buf.drop 4) firstSb true).map
              (fun l => buf.take 4 :: l)
          else if h < 5 then .error ()
          else
            if (buf.drop 4).length < h.toNat - 4 then .error ()
            else
              if ((buf.drop 4).take (h.toNat - 4)).headD 0 ≠ 2 then
                (processChunksGo fuel ((buf.drop 4).drop (h.toNat - 4))
                    firstSb false).map
                  (fun l => buf.take 4 :: (buf.drop 4).take (h.toNat - 4) :: l)
              else if firstSb then
                (processChunksGo fuel ((buf.drop 4).drop (h.toNat - 4))
                    false false).map
                  (fun l => synthPkt :: l)
              else processChunksGo fuel ((buf.drop 4).drop (h.toNat - 4))
                firstSb false

/-- The chunk stream produced by iterating `PacketLineChunkParser`; every
iteration consumes at least 4 bytes, so the fuel is ample. -/
def processChunks (buf : Bytes) : Except Unit (List Bytes) :=
  processChunksGo (buf.length + 1) buf true false

/-- `PackCache.cache_pack`: write every yielded chunk to the entry file, and
unlink the file when the chunk parser raises.  Returns the final on-disk
state of the entry (the file is opened with `"wb"`, so it starts empty). -/
def cachePackGo (fuel : Nat) (buf : Bytes) (firstSb endflush : Bool)
    (file : Bytes) : Option Bytes :=
  match fuel with
  | 0 => none
  | fuel + 1 =>
    match buf with
    | [] => if endflush then some file else none
    | _ :: _ =>
      if buf.length < 4 then none
      else
        match pyIntHex (buf.take 4) with
        | none => none
        | some h =>
          if h = 0 then
            cachePackGo fuel (buf.drop 4) firstSb true (file ++ buf.take 4)
          else if h < 5 then none
          else
            if (buf.drop 4).length < h.toNat - 4 then none
            else
              if ((buf.drop 4).take (h.toNat - 4)).headD 0 ≠ 2 then
                cachePackGo fuel ((buf.drop 4).drop (h.toNat - 4)) firstSb false
                  (file ++ buf.take 4 ++ (buf.drop 4).take (h.toNat - 4))
              else if firstSb then
                cachePackGo fuel ((buf.drop 4).drop (h.toNat - 4)) false false
                  (file ++ synthPkt)
              else cachePackGo fuel ((buf.drop 4).drop (h.toNat - 4))
                firstSb false file

/-- Final file state after `PackCache.cache_pack` on a fresh entry. -/
def cachePack (buf : Bytes) : Option Bytes :=
  cachePackGo (buf.length + 1) buf true false []

/-! ### `UploadPackHandler.run` (`upload_pack.py`) -/

/-- Python `repr` of one byte inside a `bytes` literal quoted by `q`. -/
def pyReprByte (q b : Nat) : Bytes :=
  if b = q ∨ b = 92 then [92, b]
  else if b = 9 then [92, 116]
  else if b = 10 then [92, 110]
  else if b = 13 then [92, 114]
  else if 32 ≤ b ∧ b < 127 then [b]
  else [92, 120, (natToHex4 b).getD 2 48, (natToHex4 b).getD 3 48]

/-- Python `repr(bytes)`, as produced by an f-string interpolation of a bytes
value: `b` plus a quoted, escaped literal. -/
def pyBytesRepr (bs : Bytes) : Bytes :=
  let q := if 39 ∈ bs ∧ ¬(34 ∈ bs) then 34 else 39
  [98, q] ++ (bs.map (pyReprByte q)).flatten ++ [q]

/-- Observable outcome of `UploadPackHandler.run`: the error pkt-line written
on parse failure, a silent return when there are no wants, or entry into the
cached or direct upstream path. -/
inductive RunOutcome where
  | errResp (pkt : Bytes)
  | silentNoWants
  | proceed (cached : Bool)
deriving DecidableEq, Repr

/-- `UploadPackHandler.run(input)` up to the dispatch decision; an `error`
models an exception escaping `UploadPackInputParser` itself. -/
def runV1 (input : Bytes) (multiEnv depthEnv : Option Bytes) :
    Except Unit RunOutcome :=
  match uploadPackV1 input with
  | .error e => .error e
  | .ok r =>
    if r.parseError then
      .ok (.errResp (toPacket
        (asciiBytes "ERR Wrong upload pack input: " ++ pyBytesRepr (input.take 128))
        none))
    else if r.wants.isEmpty then .ok .silentNoWants
    else .ok (.proceed (canBeCachedV1 r multiEnv depthEnv))

/-- Bytes written to the client by a `run` outcome, where that is determined
without running the upstream machinery (the `proceed` paths stream upstream
data and are not modelled here). -/
def runWrites : RunOutcome → Option (List Bytes)
  | .errResp pkt => some [pkt]
  | .silentNoWants => some []
  | .proceed _ => none

/-- Whether a `run` outcome reaches the upstream/child-process machinery. -/
def runCallsUpstream : RunOutcome → Bool
  | .proceed _ => true
  | _ => false

/-! ### In-process file-lock state machine (`aiolock.FLock`)

One event-loop worker, one lock path.  Waiters are identified by numbers.
The OS `flock` is abstracted: a non-blocking attempt may succeed (`fast`)
or park the state in an acquiring mode until an `osGrant` event fires
(`_sync_flock` finishing on the executor thread).  `_acquired` schedules a
`_try_acquire` callback via `call_soon_threadsafe`, counted by `pending`.
Cancellation of waiters is outside this model (the claim quantifies over
acquire and release events only). -/

/-- `FLock.state` (the `S` enum). -/
inductive LSt where
  | idle
  | acqEx
  | acqSh
  | heldEx
  | heldSh
deriving DecidableEq, Repr

/-- In-process lock state: mode, waiter queues, local holder count, and the
number of scheduled `_try_acquire` callbacks. -/
structure LockState where
  st : LSt := .idle
  exW : List Nat := []
  shW : List Nat := []
  holders : Nat := 0
  pending : Nat := 0
deriving DecidableEq, Repr

/-- Observable effects of one event: which waiters were granted in each mode,
and whether `_release` ran (OS lock dropped, state back to idle). -/
structure LockObs where
  grantsEx : List Nat := []
  grantsSh : List Nat := []
  released : Bool := false
deriving DecidableEq, Repr

/-- `_try_acquire_idle`: open the file and try a non-blocking flock; on
success `_acquired` runs (held state, one callback scheduled), otherwise the
state parks in the corresponding acquiring mode. -/
def idleAttempt (s : LockState) (fast : Bool) : LockState :=
  if s.exW ≠ [] then
    if fast then { s with st := .heldEx, pending := s.pending + 1 }
    else { s with st := .acqEx }
  else if s.shW ≠ [] then
    if fast then { s with st := .heldSh, pending := s.pending + 1 }
    else { s with st := .acqSh }
  else s

/-- `_release` followed by the recursive `_try_acquire` (which, from idle, can
only run the idle attempt). -/
def releaseToIdle (s : LockState) (fast : Bool) : LockState :=
  idleAttempt { s with st := .idle } fast

/-- `FLock._try_acquire`. -/
def tryAcquire (s : LockState) (fast : Bool) : LockState × LockObs :=
  match s.st with
  | .acqEx => (s, {})
  | .acqSh => (s, {})
  | .idle => (idleAttempt s fast, {})
  | .heldEx =>
    if s.exW = [] ∧ s.shW = [] then (s, {})
    else if s.holders = 0 then
      match s.exW with
      | [] => (releaseToIdle s fast, { released := true })
      | e :: rest => ({ s with exW := rest, holders := 1 }, { grantsEx := [e] })
    else (s, {})
  | .heldSh =>
    if s.exW = [] ∧ s.shW = [] then (s, {})
    else if s.exW = [] then
      ({ s with shW := [], holders := s.holders + s.shW.length },
       { grantsSh := s.shW })
    else if s.holders = 0 then (releaseToIdle s fast, { released := true })
    else (s, {})

/-- Events of the lock state machine. -/
inductive LEv where
  | reqEx (id : Nat) (fast : Bool)
  | reqSh (id : Nat) (fast : Bool)
  | osGrant
  | runPending (fast : Bool)
  | release (fast : Bool)
deriving DecidableEq, Repr

/-- One transition; `none` when the event is not enabled. -/
def lockStep (s : LockState) : LEv → Option (LockState × LockObs)
  | .reqEx id fast => some (tryAcquire { s with exW := s.exW ++ [id] } fast)
  | .reqSh id fast => some (tryAcquire { s with shW := s.shW ++ [id] } fast)
  | .osGrant =>
    match s.st with
    | .acqEx => some ({ s with st := .heldEx, pending := s.pending + 1 }, {})
    | .acqSh => some ({ s with st := .heldSh, pending := s.pending + 1 }, {})
    | _ => none
  | .runPending fast =>
    if s.pending = 0 then none
    else some (tryAcquire { s with pending := s.pending - 1 } fast)
  | .release fast =>
    match s.st with
    | .heldEx =>
      if s.holders = 0 then none
      else if 1 < s.holders then some ({ s with holders := s.holders - 1 }, {})
      else some (releaseToIdle { s with holders := 0 } fast, { released := true })
    | .heldSh =>
      if s.holders = 0 then none
      else if 1 < s.holders then some ({ s with holders := s.holders - 1 }, {})
      else some (releaseToIdle { s with holders := 0 } fast, { released := true })
    | _ => none

/-- Run a trace from a state, collecting the per-event observations. -/
def lockRun (s : LockState) : List LEv → Option (LockState × List LockObs)
  | [] => some (s, [])
  | e :: rest =>
    match lockStep s e with
    | none => none
    | some (s1, o) =>
      match lockRun s1 rest with
      | none => none
      | some (s2, os) => some (s2, o :: os)

/-! ### Cancellation-safe semaphore (`aiosemaphore.AioSemaphore`)

One blocked `acquire()` call (the non-blocking fast path did not succeed),
its `_acquire` body running on the executor thread, the event-loop
cancellation handler, and an environment of other workers sharing the
multiprocessing semaphore.  `pc` walks the executor body: 0 before
`sema.acquire()`, 1 after it returns, 2 after `self.acquired = True`,
3 after the final `if self.cancel: self.release()`. -/

structure SemaState where
  value : Nat
  envHeld : Nat
  pc : Nat := 0
  acquired : Bool := false
  cancel : Bool := false
  handlerDone : Bool := false
  net : Nat := 0
deriving DecidableEq, Repr

/-- Events: environment acquire/release, the three executor steps, and the
one-shot `except CancelledError` handler (which may fire at any point of the
wait, even after the future resolved). -/
inductive SemEv where
  | envAcquire
  | envRelease
  | execAcquire
  | execSetAcq
  | execCheck
  | cancelObs
deriving DecidableEq, Repr

/-- One transition of the semaphore model; `none` when not enabled. -/
def semStep (s : SemaState) : SemEv → Option SemaState
  | .envAcquire =>
    if s.value = 0 then none
    else some { s with value := s.value - 1, envHeld := s.envHeld + 1 }
  | .envRelease =>
    if s.envHeld = 0 then none
    else some { s with envHeld := s.envHeld - 1, value := s.value + 1 }
  | .execAcquire =>
    if s.pc ≠ 0 ∨ s.value = 0 then none
    else some { s with value := s.value - 1, net := s.net + 1, pc := 1 }
  | .execSetAcq =>
    if s.pc ≠ 1 then none
    else some { s with acquired := true, pc := 2 }
  | .execCheck =>
    if s.pc ≠ 2 then none
    else if s.cancel then
      some { s with value := s.value + 1, net := s.net - 1,
                    acquired := false, pc := 3 }
    else some { s with pc := 3 }
  | .cancelObs =>
    if s.handlerDone then none
    else if s.acquired then
      some { s with value := s.value + 1, net := s.net - 1,
                    acquired := false, handlerDone := true }
    else some { s with cancel := true, handlerDone := true }

/-- Reachability from the blocked-acquire entry state: `v0` permits free,
the rest held by other workers, executor about to block. -/
inductive SemReach (N v0 : Nat) : SemaState → Prop where
  | init : SemReach N v0 { value := v0, envHeld := N - v0 }
  | step {s s' : SemaState} {e : SemEv} :
      SemReach N v0 s → semStep s e = some s' → SemReach N v0 s'

/-! ## Claim-side definitions and theorems -/

/-! ### Claim C3: `PackCache.exists` -/

/-- The validity test exactly as the claim words it: the file exists, has
non-zero size, and its last 4 bytes are ASCII `0000`. -/
def c3ClaimValid (file : FileState) : Bool :=
  match file with
  | none => false
  | some bs =>
    decide (0 < bs.length) && decide (bs.drop (bs.length - 4) = asciiBytes "0000")

/-! ### Claim C6: pkt-line buffer parser failure conditions -/

/-- The failure condition exactly as the claim words it: header not valid
hex, declared length exceeding the remaining buffer, or header value in
1..3 inclusive. -/
def c6ClaimFail (input : Bytes) (i : Nat) : Bool :=
  match pyIntHex ((input.drop i).take 4) with
  | none => true
  | some h =>
    (decide (4 ≤ h) && decide (input.length < i + h.toNat)) ||
    (decide (1 ≤ h) && decide (h ≤ 3))

/-- The failure condition as the code has it: header values 1 and 2 yield the
delimiter and response-end markers; only 3 (and negative values) raise. -/
def c6CodeFail (input : Bytes) (i : Nat) : Bool :=
  match pyIntHex ((input.drop i).take 4) with
  | none => true
  | some h =>
    (decide (4 ≤ h) && decide (input.length < i + h.toNat)) ||
    (decide (h < 4) && decide (h ≠ 0) && decide (h ≠ 1) && decide (h ≠ 2))

/-! ### Claim C9: empty request body -/

/-- The pkt-line error written by `run` for an unparseable input, at the empty
body: `ERR Wrong upload pack input: ` followed by the f-string rendering of
`input[:128]`, which for bytes is its `repr`. -/
def c9ErrPkt : Bytes :=
  toPacket (asciiBytes "ERR Wrong upload pack input: " ++ pyBytesRepr []) none

/-! ### Claim C2: cacheability predicate -/

/-- Cacheability exactly as the claim words it, v1: done, no haves, side-band
present, no filter, exactly one want unless `PACK_CACHE_MULTI`, no depth
unless `PACK_CACHE_DEPTH`. -/
def c2ClaimPredV1 (r : V1Result) (me de : Option Bytes) : Bool :=
  r.done && decide (r.haves = []) &&
  (dictMem r.caps (asciiBytes "side-band")
    || dictMem r.caps (asciiBytes "side-band-64k")) &&
  !r.filter &&
  (decide (r.wants.length = 1) || envTruthy me) &&
  (!r.depth || envTruthy de)

/-- Cacheability exactly as the claim words it, v2 (no side-band test). -/
def c2ClaimPredV2 (r : V2Result) (me de : Option Bytes) : Bool :=
  r.done && decide (r.haves = []) &&
  !r.filter &&
  (decide (r.wants.length = 1) || envTruthy me) &&
  (!r.depth || envTruthy de)

/-- Amended v1 predicate: at most one want (a wantless done request is
cacheable too). -/
def c2AmendedPredV1 (r : V1Result) (me de : Option Bytes) : Bool :=
  r.done && decide (r.haves = []) &&
  (dictMem r.caps (asciiBytes "side-band")
    || dictMem r.caps (asciiBytes "side-band-64k")) &&
  !r.filter &&
  (decide (r.wants.length ≤ 1) || envTruthy me) &&
  (!r.depth || envTruthy de)

/-- Amended v2 predicate: at most one want. -/
def c2AmendedPredV2 (r : V2Result) (me de : Option Bytes) : Bool :=
  r.done && decide (r.haves = []) &&
  !r.filter &&
  (decide (r.wants.length ≤ 1) || envTruthy me) &&
  (!r.depth || envTruthy de)

/-- A v2 fetch request with no `want` line at all: caps, delimiter, `done`,
flush. -/
def c2Input : Bytes := asciiBytes "0011command=fetch00010009done\n0000"

/-- Its parse result. -/
def c2Res : V2Result :=
  match uploadPackV2 c2Input with
  | .ok r => r
  | .error _ => {}

/-- A small cacheability witness input for the v1 parser. -/
def c2WIn1 : Bytes := asciiBytes "000bwant a\n0000"

/-- Its parse result. -/
def c2WRes1 : V1Result :=
  match uploadPackV1 c2WIn1 with
  | .ok r => r
  | .error _ => {}

/-! ### Claim C1: the request fingerprint -/

/-- A capability rendered as the claim words it: name plus value. -/
def capPairBytes (kv : Bytes × CapV) : Bytes :=
  kv.1 ++ (match kv.2 with | .val v => v | .flag => [])

/-- The hash input exactly as the claim words it, for a v1 request: sorted
capability name+value pairs, and an `args` tag (v1 requests have no args). -/
def c1ClaimConcatV1 (r : V1Result) : Bytes :=
  asciiBytes "caps" ++ (sortBytes (r.caps.map capPairBytes)).flatten
    ++ asciiBytes "haves" ++ (sortBytes r.haves).flatten
    ++ asciiBytes "wants" ++ (sortBytes r.wants).flatten
    ++ asciiBytes "args"
    ++ (sortBytes r.depthLines).flatten
    ++ (if r.done then asciiBytes "done" else [])

/-- The hash input the v1 code actually uses: capability names only, no
`args` tag. -/
def c1AmendedConcatV1 (r : V1Result) : Bytes :=
  asciiBytes "caps" ++ (sortBytes (dictKeys r.caps)).flatten
    ++ asciiBytes "haves" ++ (sortBytes r.haves).flatten
    ++ asciiBytes "wants" ++ (sortBytes r.wants).flatten
    ++ (sortBytes r.depthLines).flatten
    ++ (if r.done then asciiBytes "done" else [])

/-- The hash input the v2 code actually uses: capability and argument names
(not values), with the `args` tag present. -/
def c1AmendedConcatV2 (r : V2Result) : Bytes :=
  asciiBytes "caps" ++ (sortBytes (dictKeys r.caps)).flatten
    ++ asciiBytes "haves" ++ (sortBytes r.haves).flatten
    ++ asciiBytes "wants" ++ (sortBytes r.wants).flatten
    ++ asciiBytes "args" ++ (sortBytes (dictKeys r.args)).flatten
    ++ (sortBytes r.depthLines).flatten
    ++ (if r.done then asciiBytes "done" else [])

/-- A small v1 request that parses cleanly. -/
def c1In : Bytes := asciiBytes "000bwant a\n0000"

/-- Its parse result. -/
def c1Res : V1Result :=
  match uploadPackV1 c1In with
  | .ok r => r
  | .error _ => {}

/-- A small v2 fetch request for the C1 witness. -/
def c1WIn2 : Bytes := asciiBytes "0011command=fetch0001000bwant a\n0009done\n0000"

/-- Its parse result. -/
def c1WRes2 : V2Result :=
  match uploadPackV2 c1WIn2 with
  | .ok r => r
  | .error _ => {}

/-- A v1 request for the C1 witness. -/
def c1WIn1 : Bytes := asciiBytes "0010want a deep\n0009done\n0000"

/-- Its parse result. -/
def c1WRes1 : V1Result :=
  match uploadPackV1 c1WIn1 with
  | .ok r => r
  | .error _ => {}

/-- A truncated stream (one data packet, no final flush). -/
def c4WBuf : Bytes := toPacket [65] (some 1)

/-! ### Claim C5: sideband-2 filtering in the chunk stream -/

/-- A frame of the upstream stream: a flush packet or a data packet with its
raw 4-byte header and payload. -/
inductive Frame where
  | flush (hdr : Bytes)
  | data (hdr : Bytes) (payload : Bytes)
deriving DecidableEq, Repr

/-- The frame decomposition of the stream, with the same error conditions as
the chunk parser but no sideband filtering. -/
def framesGo (fuel : Nat) (buf : Bytes) (endflush : Bool) :
    Except Unit (List Frame) :=
  match fuel with
  | 0 => .error ()
  | fuel + 1 =>
    match buf with
    | [] => if endflush then .ok [] else .error ()
    | _ :: _ =>
      if buf.length < 4 then .error ()
      else
        match pyIntHex (buf.take 4) with
        | none => .error ()
        | some h =>
          if h = 0 then
            (framesGo fuel (buf.drop 4) true).map
              (fun l => .flush (buf.take 4) :: l)
          else if h < 5 then .error ()
          else
            if (buf.drop 4).length < h.toNat - 4 then .error ()
            else
              (framesGo fuel ((buf.drop 4).drop (h.toNat - 4)) false).map
                (fun l => .data (buf.take 4)
                  ((buf.drop 4).take (h.toNat - 4)) :: l)

/-- Frame decomposition of a whole stream. -/
def frames (buf : Bytes) : Except Unit (List Frame) :=
  framesGo (buf.length + 1) buf false

/-- A sideband channel-2 (progress) frame. -/
def isChan2 : Frame → Bool
  | .data _ p => decide (p.headD 0 = 2)
  | .flush _ => false

/-- The filtering the spec describes: pass flushes and non-channel-2 data
frames through (header then payload), drop every channel-2 frame, emitting
the synthetic progress packet in place of the first one. -/
def renderFrames (fs : Bool) : List Frame → List Bytes
  | [] => []
  | .flush hdr :: r => hdr :: renderFrames fs r
  | .data hdr p :: r =>
    if p.headD 0 ≠ 2 then hdr :: p :: renderFrames fs r
    else if fs then synthPkt :: renderFrames false r
    else renderFrames fs r

/-- Number of synthetic-packet emissions of the filter. -/
def synthEmits (fs : Bool) : List Frame → Nat
  | [] => 0
  | .flush _ :: r => synthEmits fs r
  | .data _ p :: r =>
    if p.headD 0 ≠ 2 then synthEmits fs r
    else if fs then 1 + synthEmits false r
    else synthEmits fs r

/-- The per-claim ordering property the claim asserts: every synthetic packet
occurrence precedes every channel-1 payload chunk. -/
def c5SynthBeforeChan1 (outs : List Bytes) : Prop :=
  ∀ i j ci cj, outs.get? i = some ci → ci = synthPkt →
    outs.get? j = some cj → cj.headD 0 = 1 → i < j

/-- A stream whose channel-1 data frame precedes its first channel-2 frame. -/
def c5Buf : Bytes :=
  toPacket [65] (some 1) ++ toPacket [66] (some 2) ++ asciiBytes "0000"

/-- Its output chunks. -/
def c5Outs : List Bytes :=
  match processChunks c5Buf with
  | .ok outs => outs
  | .error _ => []

/-- A stream whose first packet is channel-2 progress. -/
def c5WBuf : Bytes :=
  toPacket [66, 120] (some 2) ++ toPacket [65] (some 1) ++ asciiBytes "0000"

/-- Its output chunks. -/
def c5WOuts : List Bytes :=
  match processChunks c5WBuf with
  | .ok outs => outs
  | .error _ => []

/-! ### Claim C8: semaphore cancellation safety -/

/-- The inductive invariant of the semaphore model. -/
def semInv (N : Nat) (s : SemaState) : Prop :=
  s.value + s.envHeld + s.net = N ∧
  s.net ≤ 1 ∧
  (s.pc = 0 → s.net = 0 ∧ s.acquired = false) ∧
  (s.pc = 1 → s.net = 1 ∧ s.acquired = false) ∧
  (s.pc = 2 → (s.acquired = true ∧ s.net = 1) ∨
    (s.acquired = false ∧ s.net = 0 ∧ s.handlerDone = true ∧ s.cancel = false)) ∧
  (s.pc = 3 → s.acquired = false → s.net = 0) ∧
  (s.acquired = true → s.net = 1) ∧
  (s.cancel = true → s.handlerDone = true) ∧
  (s.handlerDone = true → s.cancel = false →
    s.acquired = false ∧ s.net = 0 ∧ 2 ≤ s.pc) ∧
  (s.cancel = true → s.pc = 3 → s.acquired = false)

/-- The state reached by: blocked acquire, cancellation observed while the
permit is not yet marked acquired, executor then finishing and
self-releasing. -/
def c8WState : SemaState :=
  { value := 1, envHeld := 0, pc := 3, acquired := false, cancel := true,
    handlerDone := true, net := 0 }

/-- Intermediate states of the witness interleaving. -/
def c8W1 : SemaState :=
  { value := 0, envHeld := 0, pc := 1, acquired := false, cancel := false,
    handlerDone := false, net := 1 }

/-- State after the cancellation handler has run. -/
def c8W2 : SemaState :=
  { value := 0, envHeld := 0, pc := 1, acquired := false, cancel := true,
    handlerDone := true, net := 1 }

/-- State after the executor marks the permit acquired. -/
def c8W3 : SemaState :=
  { value := 0, envHeld := 0, pc := 2, acquired := true, cancel := true,
    handlerDone := true, net := 1 }

/-- Initial state for the writer-priority run: the lock is held exclusively
by some holder and writer 7 already waits in the exclusive queue. -/
def c7S0 : LockState :=
  { st := .heldEx, exW := [7], shW := [], holders := 1, pending := 0 }

/-- Event trace: reader 5 requests a shared lock, the current holder
releases, the scheduled callback grants writer 7, writer 7 releases, and
the next callback finally grants reader 5. -/
def c7Tr : List LEv :=
  [.reqSh 5 true, .release true, .runPending true, .release true,
   .runPending true]

/-- Final state of the run. -/
def c7Sf : LockState :=
  { st := .heldSh, exW := [], shW := [], holders := 1, pending := 0 }

/-- Observations of the run: reader 5 is granted only at index 4, after the
grant of writer 7 at index 2 and the release at index 3. -/
def c7Os : List LockObs :=
  [{}, { released := true }, { grantsEx := [7] }, { released := true },
   { grantsSh := [5] }]

/-! ## Theorems -/

/-- Claim C3, counterexample: on a 2-byte file (content `00`) the claim says
`exists()` returns false, but the code raises `OSError` from the negative
seek, so the result is not a boolean at all. -/
theorem c3_counterexample :
    packCacheExists (some [48, 48]) = .error () ∧
    c3ClaimValid (some [48, 48]) = false ∧
    packCacheExists (some [48, 48]) ≠ .ok (c3ClaimValid (some [48, 48])) := by
  refine ⟨rfl, rfl, fun h => ?_⟩
  rw [show packCacheExists (some [48, 48]) = .error () from rfl] at h
  exact Except.noConfusion h

/-- Claim C3 (amended): `exists()` agrees with the claimed validity predicate
in every file state except one carve-out: on a file of size 1 to 3 bytes the
negative seek raises `OSError` instead of returning false. -/
theorem c3_exists_amended (file : FileState) :
    packCacheExists file =
      (match file with
       | some bs =>
         if 1 ≤ bs.length ∧ bs.length ≤ 3 then .error ()
         else .ok (c3ClaimValid (some bs))
       | none => .ok (c3ClaimValid none)) := by
  rcases file with _ | bs
  · rfl
  · unfold packCacheExists c3ClaimValid
    rcases Nat.lt_or_ge bs.length 1 with h0 | h0
    · have hz : bs.length = 0 := by omega
      simp [hz, List.eq_nil_of_length_eq_zero hz]
    · rcases Nat.lt_or_ge bs.length 4 with h4 | h4
      · have : (1 ≤ bs.length ∧ bs.length ≤ 3) := by omega
        simp only [if_pos this, if_pos (by omega : 0 < bs.length),
          if_pos (by omega : bs.length < 4)]
      · have hcond : ¬(1 ≤ bs.length ∧ bs.length ≤ 3) := by omega
        simp only [if_neg hcond, if_pos (by omega : 0 < bs.length),
          if_neg (by omega : ¬bs.length < 4), Except.ok.injEq]
        have : decide (0 < bs.length) = true := by simp; omega
        rw [this, Bool.true_and]

/-- Claim C6, counterexample: a `0001` frame is, per the claim, a parse
failure (header value in 1..3), but the parser yields the delimiter marker. -/
theorem c6_counterexample :
    c6ClaimFail (asciiBytes "0001") 0 = true ∧
    nextPkt (asciiBytes "0001") 0 = .item .delim 4 ∧
    nextPkt (asciiBytes "0001") 0 ≠ .err := by
  refine ⟨by decide, by decide, by decide⟩

/-- Claim C6 (amended): the iterator stops exactly when fewer than 4 bytes
remain, and raises exactly when the header is not valid hex, the declared
length overruns the buffer, or the header value is below 4 without being
0, 1 or 2 (headers 1 and 2 yield delimiter and response-end items). -/
theorem c6_step_amended (input : Bytes) (i : Nat) :
    (nextPkt input i = .stop ↔ input.length < i + 4) ∧
    (nextPkt input i = .err ↔ i + 4 ≤ input.length ∧ c6CodeFail input i = true) := by
  unfold nextPkt c6CodeFail
  by_cases hlen : i + 4 > input.length
  · refine ⟨?_, ?_⟩ <;> simp [if_pos hlen]
    · omega
    · intro h1
      exact absurd h1 (by omega)
  · rcases hhex : pyIntHex ((input.drop i).take 4) with _ | h
    · refine ⟨?_, ?_⟩ <;> simp [if_neg hlen, hhex] <;> omega
    · by_cases h4 : 4 ≤ h
      · by_cases hov : i + h.toNat > input.length
        · refine ⟨?_, ?_⟩ <;> simp [if_neg hlen, hhex, if_pos h4, if_pos hov, h4] <;> omega
        · refine ⟨?_, ?_⟩ <;> simp [if_neg hlen, hhex, if_pos h4, if_neg hov, h4] <;> omega
      · by_cases h0 : h = 0
        · refine ⟨?_, ?_⟩ <;> simp [if_neg hlen, hhex, if_neg h4, h0] <;> omega
        · by_cases h1 : h = 1
          · refine ⟨?_, ?_⟩ <;> simp [if_neg hlen, hhex, if_neg h4, h0, h1] <;> omega
          · by_cases h2 : h = 2
            · refine ⟨?_, ?_⟩ <;> simp [if_neg hlen, hhex, if_neg h4, h0, h1, h2] <;> omega
            · refine ⟨?_, ?_⟩ <;> simp [if_neg hlen, hhex, if_neg h4, h0, h1, h2] <;> omega

/-- Claim C9, counterexample: on the empty body the parser records a parse
error (`StopIteration` from the first `next`), so `run` writes an `ERR`
pkt-line to the client rather than writing nothing. -/
theorem c9_counterexample :
    runV1 [] none none = .ok (.errResp c9ErrPkt) ∧
    runWrites (.errResp c9ErrPkt) = some [c9ErrPkt] ∧
    c9ErrPkt ≠ [] := by
  refine ⟨rfl, rfl, by decide⟩

/-- Claim C9 (amended): on the empty body `run` writes exactly one pkt-line,
`ERR Wrong upload pack input: b` followed by two apostrophes, and makes no
upstream call. -/
theorem c9_empty_body_amended :
    runV1 [] none none = .ok (.errResp c9ErrPkt) ∧
    runCallsUpstream (.errResp c9ErrPkt) = false := by
  refine ⟨rfl, rfl⟩

/-- Claim C2, counterexample: a wantless v2 fetch with `done` parses cleanly,
is cacheable per the code (`len(wants) > 1` fails), but has zero wants, not
one, so the claimed biconditional is false. -/
theorem c2_counterexample :
    uploadPackV2 c2Input = .ok c2Res ∧
    c2Res.parseError = false ∧
    canBeCachedV2 c2Res none none = true ∧
    c2ClaimPredV2 c2Res none none = false := by
  refine ⟨rfl, by decide, by decide, by decide⟩

/-- The v1 iff, for any parser result. -/
theorem canBeCachedV1_iff (r : V1Result) (me de : Option Bytes) :
    canBeCachedV1 r me de = true ↔ c2AmendedPredV1 r me de = true := by
  unfold canBeCachedV1 c2AmendedPredV1
  cases hdone : r.done <;> cases hfil : r.filter <;>
    cases hsb : dictMem r.caps (asciiBytes "side-band") <;>
    cases hsb64 : dictMem r.caps (asciiBytes "side-band-64k") <;>
    cases hdep : r.depth <;>
    cases hme : envTruthy me <;> cases hde : envTruthy de <;>
    simp [hdone, hfil, hsb, hsb64, hdep, hme, hde, List.length_eq_zero] <;>
    omega

/-- The v2 iff, for any parser result. -/
theorem canBeCachedV2_iff (r : V2Result) (me de : Option Bytes) :
    canBeCachedV2 r me de = true ↔ c2AmendedPredV2 r me de = true := by
  unfold canBeCachedV2 c2AmendedPredV2
  cases hdone : r.done <;> cases hfil : r.filter <;>
    cases hdep : r.depth <;>
    cases hme : envTruthy me <;> cases hde : envTruthy de <;>
    simp [hdone, hfil, hdep, hme, hde, List.length_eq_zero] <;>
    omega

/-- Claim C2 (amended): for every parsed request, `can_be_cached()` is true
iff done is set, there are no haves, (v1 only) a side-band capability is
present, no filter, at most one want unless `PACK_CACHE_MULTI` is truthy, and
no depth unless `PACK_CACHE_DEPTH` is truthy. -/
theorem c2_can_be_cached_amended
    (input1 input2 : Bytes) (r1 : V1Result) (r2 : V2Result) (me de : Option Bytes)
    (h1 : uploadPackV1 input1 = .ok r1) (he1 : r1.parseError = false)
    (h2 : uploadPackV2 input2 = .ok r2) (he2 : r2.parseError = false) :
    (canBeCachedV1 r1 me de = true ↔ c2AmendedPredV1 r1 me de = true) ∧
    (canBeCachedV2 r2 me de = true ↔ c2AmendedPredV2 r2 me de = true) :=
  ⟨canBeCachedV1_iff r1 me de, canBeCachedV2_iff r2 me de⟩

/-- Witness for the amended C2 theorem at concrete parsed requests. -/
theorem c2_can_be_cached_amended_witness :
    (canBeCachedV1 c2WRes1 none none = true ↔
      c2AmendedPredV1 c2WRes1 none none = true) ∧
    (canBeCachedV2 c2Res none none = true ↔
      c2AmendedPredV2 c2Res none none = true) :=
  c2_can_be_cached_amended c2WIn1 c2Input c2WRes1 c2Res none none
    rfl (by decide) rfl (by decide)

set_option maxRecDepth 100000 in
set_option maxHeartbeats 2000000 in
/-- Claim C1, counterexample: on a minimal v1 request the parser hashes
`caps`, `haves`, `wants` and the sorted wants with no `args` tag, so the
fingerprint differs from the SHA-256 the claim prescribes (which appends
`args`). -/
theorem c1_counterexample :
    uploadPackV1 c1In = .ok c1Res ∧
    c1Res.parseError = false ∧
    c1Res.hash ≠ .sha (sha256hex (c1ClaimConcatV1 c1Res)) := by
  refine ⟨rfl, by decide, by decide⟩

/-- Structure of a successful v1 try-body run. -/
theorem v1TryBody_spec (input : Bytes) (r : V1Result)
    (h : v1TryBody input = some r) :
    r.parseError = false ∧ r.hash = .sha (sha256hex (c1AmendedConcatV1 r)) := by
  unfold v1TryBody at h
  split at h
  · exact absurd h (by simp)
  · split at h
    · exact absurd h (by simp)
    · split at h
      · exact absurd h (by simp)
      · split at h
        · cases h
          exact ⟨rfl, rfl⟩
        · exact absurd h (by simp)

/-- Structure of a successful v2 try-body run with `parse_error` false. -/
theorem v2TryBody_spec (input : Bytes) (r : V2Result)
    (h : v2TryBody input = some r) (he : r.parseError = false) :
    r.hash = some (.sha (sha256hex (c1AmendedConcatV2 r))) := by
  unfold v2TryBody at h
  split at h
  · exact absurd h (by simp)
  · split at h
    · exact absurd h (by simp)
    · split at h
      · exact absurd h (by simp)
      · cases h
        exact Bool.noConfusion he
      · cases h
        exact Bool.noConfusion he
      · split at h
        · exact absurd h (by simp)
        · split at h
          · cases h
            exact Bool.noConfusion he
          · split at h
            · cases h
              exact Bool.noConfusion he
            · split at h
              · exact absurd h (by simp)
              · split at h
                · exact absurd h (by simp)
                · split at h
                  · cases h
                    rfl
                  · exact absurd h (by simp)

/-- Claim C1 (amended): for every request that parses without error, the
fingerprint is the lowercase-hex SHA-256 of `caps` + sorted capability names,
`haves` + sorted haves, `wants` + sorted wants, then (v2 only) `args` +
sorted argument names, the sorted depth lines, and `done` iff done.
Capability and argument values are not hashed, and the v1 parser emits no
`args` tag. -/
theorem c1_fingerprint_amended
    (input1 input2 : Bytes) (r1 : V1Result) (r2 : V2Result)
    (h1 : uploadPackV1 input1 = .ok r1) (he1 : r1.parseError = false)
    (h2 : uploadPackV2 input2 = .ok r2) (he2 : r2.parseError = false) :
    r1.hash = .sha (sha256hex (c1AmendedConcatV1 r1)) ∧
    r2.hash = some (.sha (sha256hex (c1AmendedConcatV2 r2))) := by
  constructor
  · unfold uploadPackV1 at h1
    rcases hv : v1TryBody input1 with _ | r0
    · simp only [hv] at h1
      split at h1
      · cases h1
        exact Bool.noConfusion he1
      · exact absurd h1 (by simp)
    · simp only [hv] at h1
      have hs := v1TryBody_spec input1 r0 hv
      cases h1
      exact hs.2
  · unfold uploadPackV2 at h2
    rcases hv : v2TryBody input2 with _ | r0
    · simp only [hv] at h2
      split at h2
      · cases h2
        exact Bool.noConfusion he2
      · exact absurd h2 (by simp)
    · simp only [hv] at h2
      have hs := v2TryBody_spec input2 r0 hv
      cases h2
      exact hs he2

/-- Witness for the amended C1 theorem at concrete requests. -/
theorem c1_fingerprint_amended_witness :
    c1WRes1.hash = .sha (sha256hex (c1AmendedConcatV1 c1WRes1)) ∧
    c1WRes2.hash = some (.sha (sha256hex (c1AmendedConcatV2 c1WRes2))) :=
  c1_fingerprint_amended c1WIn1 c1WIn2 c1WRes1 c1WRes2
    rfl (by decide) rfl (by decide)

/-! ### Claim C10: the v1 constructor never propagates -/

/-- Claim C10: for valid-UTF-8 input the v1 constructor returns normally; any
internal failure is caught, `parse_error` is set and the fingerprint is the
fresh random UUID. -/
theorem c10_constructor_total (input : Bytes) (hu : validUtf8 input = true) :
    ∃ r, uploadPackV1 input = .ok r ∧ (r.parseError = true → r.hash = .rand) := by
  unfold uploadPackV1
  rcases hv : v1TryBody input with _ | r0 <;> simp only [hv]
  · rw [if_pos hu]
    exact ⟨{}, rfl, fun _ => rfl⟩
  · refine ⟨r0, rfl, fun hpe => ?_⟩
    have h1 := (v1TryBody_spec input r0 hv).1
    rw [h1] at hpe
    exact Bool.noConfusion hpe

/-- Witness: the bytes `zz` are valid UTF-8, fail to parse, and get the
random fingerprint. -/
theorem c10_constructor_total_witness :
    validUtf8 (asciiBytes "zz") = true ∧
    ∃ r, uploadPackV1 (asciiBytes "zz") = .ok r ∧
      (r.parseError = true → r.hash = .rand) :=
  ⟨by decide, c10_constructor_total (asciiBytes "zz") (by decide)⟩

/-! ### Claim C4: failed populate unlinks the entry -/

/-- If the chunk parser raises, the incremental writer of `cache_pack` always
ends with the entry unlinked, whatever was already written. -/
theorem cachePackGo_none_of_error :
    ∀ fuel buf fs ef (file : Bytes),
      processChunksGo fuel buf fs ef = .error () →
      cachePackGo fuel buf fs ef file = none := by
  intro fuel
  induction fuel with
  | zero => intro buf fs ef file _; rfl
  | succ fuel ih =>
    intro buf fs ef file h
    rcases buf with _ | ⟨x, xs⟩
    · simp only [processChunksGo] at h
      simp only [cachePackGo]
      cases ef
      · rfl
      · simp at h
    · simp only [processChunksGo] at h
      simp only [cachePackGo]
      by_cases h4 : (x :: xs).length < 4
      · rw [if_pos h4]
      · rw [if_neg h4] at h ⊢
        rcases hx : pyIntHex ((x :: xs).take 4) with _ | hh <;>
          simp only [hx] at h ⊢
        by_cases h0 : hh = 0
        · rw [if_pos h0] at h ⊢
          rcases hin : processChunksGo fuel ((x :: xs).drop 4) fs true with e | v
          · cases e
            exact ih _ _ _ _ hin
          · rw [hin] at h
            simp [Except.map] at h
        · rw [if_neg h0] at h ⊢
          by_cases h5 : hh < 5
          · rw [if_pos h5]
          · rw [if_neg h5] at h ⊢
            by_cases hr : ((x :: xs).drop 4).length < hh.toNat - 4
            · rw [if_pos hr]
            · rw [if_neg hr] at h ⊢
              by_cases hch : (((x :: xs).drop 4).take (hh.toNat - 4)).headD 0 ≠ 2
              · rw [if_pos hch] at h ⊢
                rcases hin : processChunksGo fuel
                    (((x :: xs).drop 4).drop (hh.toNat - 4)) fs false with e | v
                · cases e
                  exact ih _ _ _ _ hin
                · rw [hin] at h
                  simp [Except.map] at h
              · rw [if_neg hch] at h ⊢
                cases fs
                · simp only [Bool.false_eq_true, if_neg] at h ⊢
                  exact ih _ _ _ _ h
                · simp only [if_pos] at h ⊢
                  rcases hin : processChunksGo fuel
                      (((x :: xs).drop 4).drop (hh.toNat - 4)) false false with e | v
                  · cases e
                    exact ih _ _ _ _ hin
                  · rw [hin] at h
                    simp [Except.map] at h

/-- Claim C4: if the packet-line chunk parser raises mid-write, `cache_pack`
leaves no file behind (the partial entry is unlinked). -/
theorem c4_cache_pack_unlinks (buf : Bytes)
    (h : processChunks buf = .error ()) : cachePack buf = none :=
  cachePackGo_none_of_error (buf.length + 1) buf true false [] h

/-- Witness: the truncated stream makes the parser raise and the cache entry
is unlinked. -/
theorem c4_cache_pack_unlinks_witness :
    processChunks c4WBuf = .error () ∧ cachePack c4WBuf = none :=
  ⟨rfl, c4_cache_pack_unlinks c4WBuf rfl⟩

/-- The fused chunk parser equals frame decomposition followed by filtering. -/
theorem processChunksGo_eq_frames :
    ∀ fuel buf fs ef,
      processChunksGo fuel buf fs ef =
        (framesGo fuel buf ef).map (renderFrames fs) := by
  intro fuel
  induction fuel with
  | zero => intro buf fs ef; rfl
  | succ fuel ih =>
    intro buf fs ef
    rcases buf with _ | ⟨x, xs⟩
    · simp only [processChunksGo, framesGo]
      cases ef
      · rfl
      · rfl
    · simp only [processChunksGo, framesGo]
      by_cases h4 : (x :: xs).length < 4
      · simp only [if_pos h4, Except.map]
      · simp only [if_neg h4]
        rcases hx : pyIntHex ((x :: xs).take 4) with _ | hh <;> simp only [hx]
        · rfl
        · by_cases h0 : hh = 0
          · simp only [if_pos h0]
            rw [ih ((x :: xs).drop 4) fs true]
            rcases hf : framesGo fuel ((x :: xs).drop 4) true with e | frs <;>
              simp only [hf, Except.map, renderFrames]
          · simp only [if_neg h0]
            by_cases h5 : hh < 5
            · simp only [if_pos h5, Except.map]
            · simp only [if_neg h5]
              by_cases hr : ((x :: xs).drop 4).length < hh.toNat - 4
              · simp only [if_pos hr, Except.map]
              · simp only [if_neg hr]
                by_cases hch : (((x :: xs).drop 4).take (hh.toNat - 4)).headD 0 ≠ 2
                · simp only [if_pos hch]
                  rw [ih (((x :: xs).drop 4).drop (hh.toNat - 4)) fs false]
                  rcases hf : framesGo fuel (((x :: xs).drop 4).drop (hh.toNat - 4))
                      false with e | frs <;>
                    simp only [hf, Except.map, renderFrames] <;>
                    simp only [if_pos hch]
                · simp only [if_neg hch]
                  have hch2 : (List.take (hh.toNat - 4) (List.drop 3 xs)).head?.getD 0 = 2 := by
                    have hc := not_not.mp hch
                    simpa using hc
                  cases fs
                  · rw [ih (((x :: xs).drop 4).drop (hh.toNat - 4)) false false]
                    rcases hf : framesGo fuel (((x :: xs).drop 4).drop (hh.toNat - 4))
                        false with e | frs <;>
                      simp [hf, Except.map, renderFrames, hch2]
                  · rw [ih (((x :: xs).drop 4).drop (hh.toNat - 4)) false false]
                    rcases hf : framesGo fuel (((x :: xs).drop 4).drop (hh.toNat - 4))
                        false with e | frs <;>
                      simp [hf, Except.map, renderFrames, hch2]

/-- With the flag already spent, the filter emits no synthetic packet. -/
theorem synthEmits_false (frs : List Frame) : synthEmits false frs = 0 := by
  induction frs with
  | nil => rfl
  | cons f r ih =>
    cases f with
    | flush hdr => simpa only [synthEmits] using ih
    | data hdr p =>
      simp only [synthEmits]
      by_cases hp : p.headD 0 ≠ 2
      · rw [if_pos hp]
        exact ih
      · rw [if_neg hp, if_neg (fun hff => Bool.noConfusion hff)]
        exact ih

/-- The filter emits the synthetic packet exactly once when some channel-2
frame is present, and never otherwise. -/
theorem synthEmits_true (frs : List Frame) :
    synthEmits true frs = (if frs.any isChan2 then 1 else 0) := by
  induction frs with
  | nil => rfl
  | cons f r ih =>
    cases f with
    | flush hdr =>
      simp only [synthEmits, List.any_cons, isChan2, Bool.false_or]
      exact ih
    | data hdr p =>
      simp only [synthEmits, List.any_cons, isChan2]
      by_cases hp : p.headD 0 = 2
      · have hp2 : (List.head? p).getD 0 = 2 := by simpa using hp
        simp [hp2, synthEmits_false]
      · have hp2 : ¬(List.head? p).getD 0 = 2 := by simpa using hp
        simp [hp2, ih]

/-- Claim C5 (amended): for every stream the parser accepts, the output is
the frame stream with every channel-2 packet dropped, the first replaced in
place by the synthetic `git-cdn, using cached pack` progress packet, emitted
exactly once iff the input has a channel-2 packet. -/
theorem c5_chunk_stream_amended (buf : Bytes) (outs : List Bytes)
    (h : processChunks buf = .ok outs) :
    ∃ frs, frames buf = .ok frs ∧ outs = renderFrames true frs ∧
      synthEmits true frs = (if frs.any isChan2 then 1 else 0) := by
  unfold processChunks at h
  have he := processChunksGo_eq_frames (buf.length + 1) buf true false
  rw [h] at he
  rcases hf : framesGo (buf.length + 1) buf false with e | frs
  · rw [hf] at he
    exact absurd he (by simp [Except.map])
  · rw [hf] at he
    simp only [Except.map] at he
    cases he
    exact ⟨frs, hf, rfl, synthEmits_true frs⟩

/-- Claim C5, counterexample: the synthetic packet replaces the first
channel-2 frame in place, which here comes after a channel-1 data frame, so
the synthetic packet is not emitted before every channel-1 frame. -/
theorem c5_counterexample :
    processChunks c5Buf = .ok c5Outs ∧ ¬ c5SynthBeforeChan1 c5Outs := by
  refine ⟨rfl, fun hp => ?_⟩
  have h21 := hp 2 1 synthPkt ((c5Outs.get? 1).getD []) (by decide) rfl
    (by decide) (by decide)
  omega

/-- Witness for the amended C5 theorem on a concrete stream. -/
theorem c5_chunk_stream_amended_witness :
    ∃ frs, frames c5WBuf = .ok frs ∧ c5WOuts = renderFrames true frs ∧
      synthEmits true frs = (if frs.any isChan2 then 1 else 0) :=
  c5_chunk_stream_amended c5WBuf c5WOuts rfl

/-- The invariant holds initially. -/
theorem semInv_init (N v0 : Nat) (h0 : v0 ≤ N) :
    semInv N { value := v0, envHeld := N - v0 } := by
  unfold semInv
  simp
  omega

/-- The invariant is preserved by every enabled transition. -/
theorem semInv_step (N : Nat) (s s' : SemaState) (e : SemEv)
    (hinv : semInv N s) (h : semStep s e = some s') : semInv N s' := by
  obtain ⟨h1, h2, h3, h4, h5, h6, h7, h8, h9, h10⟩ := hinv
  cases e <;> simp only [semStep] at h <;>
    (repeat' split at h) <;> cases h <;>
    cases hacq : s.acquired <;> cases hcan : s.cancel <;>
      cases hhd : s.handlerDone <;>
      simp_all [semInv] <;> omega

/-- Every reachable state satisfies the invariant. -/
theorem semInv_reach (N v0 : Nat) (h0 : v0 ≤ N) (s : SemaState)
    (hr : SemReach N v0 s) : semInv N s := by
  induction hr with
  | init => exact semInv_init N v0 h0
  | step hr hstep ih => exact semInv_step N _ _ _ ih hstep

/-- Claim C8: in every reachable state of the semaphore model, the permits
held (by this acquire and the environment together) never exceed the count,
and once the executor body has finished after a cancellation was observed,
this call holds no permit: the cancelled blocked acquire self-releases. -/
theorem c8_semaphore_no_leak (N v0 : Nat) (h0 : v0 ≤ N) (s : SemaState)
    (hr : SemReach N v0 s) :
    s.envHeld + s.net ≤ N ∧
    (s.pc = 3 → s.handlerDone = true → s.net = 0) := by
  obtain ⟨h1, h2, h3, h4, h5, h6, h7, h8, h9, h10⟩ := semInv_reach N v0 h0 s hr
  constructor
  · omega
  · intro hpc hhd
    rcases hcan : s.cancel with _ | _
    · exact (h9 hhd hcan).2.1
    · exact h6 hpc (h10 hcan hpc)

/-- Witness: the cancel-then-complete interleaving reaches a state with no
leaked permit. -/
theorem c8_semaphore_no_leak_witness :
    c8WState.envHeld + c8WState.net ≤ 1 ∧
    (c8WState.pc = 3 → c8WState.handlerDone = true → c8WState.net = 0) := by
  have r1 : SemReach 1 1 c8W1 :=
    @SemReach.step 1 1 _ c8W1 SemEv.execAcquire SemReach.init (by decide)
  have r2 : SemReach 1 1 c8W2 :=
    @SemReach.step 1 1 c8W1 c8W2 SemEv.cancelObs r1 (by decide)
  have r3 : SemReach 1 1 c8W3 :=
    @SemReach.step 1 1 c8W2 c8W3 SemEv.execSetAcq r2 (by decide)
  have r4 : SemReach 1 1 c8WState :=
    @SemReach.step 1 1 c8W3 c8WState SemEv.execCheck r3 (by decide)
  exact c8_semaphore_no_leak 1 1 (by decide) c8WState r4

theorem tryAcquire_grantsSh_spec (s : LockState) (fast : Bool) :
    (tryAcquire s fast).2.grantsSh = [] ∨
    (s.exW = [] ∧ s.st = .heldSh ∧ (tryAcquire s fast).2.grantsSh = s.shW) := by
  unfold tryAcquire releaseToIdle idleAttempt
  cases hst : s.st <;> simp only [hst] <;> (try split_ifs) <;>
    (try rcases hex : s.exW with _ | ⟨e0, rest⟩) <;> simp_all

theorem tryAcquire_exW_spec (s : LockState) (fast : Bool) :
    ((tryAcquire s fast).1.exW = s.exW ∧ (tryAcquire s fast).2.grantsEx = []) ∨
    (∃ e0 rest, s.exW = e0 :: rest ∧ (tryAcquire s fast).1.exW = rest ∧
      (tryAcquire s fast).2.grantsEx = [e0] ∧ (tryAcquire s fast).1.st = .heldEx ∧
      (tryAcquire s fast).1.holders = 1) := by
  unfold tryAcquire releaseToIdle idleAttempt
  cases hst : s.st <;> simp only [hst] <;> (try split_ifs) <;>
    (try rcases hex : s.exW with _ | ⟨e0, rest⟩) <;> simp_all <;>
    (try exact ⟨e0, rest, ⟨rfl, rfl⟩, rfl, rfl⟩)

theorem tryAcquire_heldEx_frozen (s : LockState) (fast : Bool)
    (hst : s.st = .heldEx) (hh : 1 ≤ s.holders) :
    tryAcquire s fast = (s, {}) := by
  unfold tryAcquire
  simp only [hst]
  split_ifs with h1 h2
  · rfl
  · omega
  · rfl

theorem tryAcquire_shW_keep (s : LockState) (fast : Bool)
    (hg : (tryAcquire s fast).2.grantsSh = []) :
    (tryAcquire s fast).1.shW = s.shW := by
  unfold tryAcquire releaseToIdle idleAttempt at hg ⊢
  cases hst : s.st <;> simp only [hst] at hg ⊢ <;> (try split_ifs) <;>
    (try rcases hex : s.exW with _ | ⟨e0, rest⟩) <;> simp_all

theorem idleAttempt_fields (s : LockState) (fast : Bool) :
    (idleAttempt s fast).exW = s.exW ∧ (idleAttempt s fast).shW = s.shW ∧
    (idleAttempt s fast).holders = s.holders := by
  unfold idleAttempt
  split_ifs <;> exact ⟨rfl, rfl, rfl⟩

theorem releaseToIdle_exW (s : LockState) (fast : Bool) :
    (releaseToIdle s fast).exW = s.exW := by
  unfold releaseToIdle
  exact (idleAttempt_fields { s with st := .idle } fast).1

theorem lockStep_grantsSh_exW (s : LockState) (ev : LEv) (s1 : LockState)
    (o : LockObs) (h : lockStep s ev = some (s1, o)) (hg : o.grantsSh ≠ []) :
    s.exW = [] := by
  cases ev with
  | reqEx id fast =>
    simp only [lockStep, Option.some_inj] at h
    have ho := congrArg Prod.snd h
    rcases tryAcquire_grantsSh_spec { s with exW := s.exW ++ [id] } fast with
      hnil | ⟨hex, _, _⟩
    · rw [ho] at hnil
      exact absurd hnil hg
    · simp at hex
  | reqSh id fast =>
    simp only [lockStep, Option.some_inj] at h
    have ho := congrArg Prod.snd h
    rcases tryAcquire_grantsSh_spec { s with shW := s.shW ++ [id] } fast with
      hnil | ⟨hex, _, _⟩
    · rw [ho] at hnil
      exact absurd hnil hg
    · exact hex
  | osGrant =>
    simp only [lockStep] at h
    split at h <;> cases h <;> exact absurd rfl hg
  | runPending fast =>
    simp only [lockStep] at h
    split at h
    · cases h
    · rw [Option.some_inj] at h
      have ho := congrArg Prod.snd h
      rcases tryAcquire_grantsSh_spec { s with pending := s.pending - 1 } fast
        with hnil | ⟨hex, _, _⟩
      · rw [ho] at hnil
        exact absurd hnil hg
      · exact hex
  | release fast =>
    simp only [lockStep] at h
    split at h <;> (repeat' split at h) <;> cases h <;> exact absurd rfl hg

theorem lockStep_exW_mem (s : LockState) (ev : LEv) (s1 : LockState)
    (o : LockObs) (e : Nat) (h : lockStep s ev = some (s1, o))
    (he : e ∈ s.exW) : e ∈ o.grantsEx ∨ e ∈ s1.exW := by
  cases ev with
  | reqEx id fast =>
    simp only [lockStep, Option.some_inj] at h
    have hs1 := congrArg (fun p => (Prod.fst p).exW) h
    have ho := congrArg (fun p => (Prod.snd p).grantsEx) h
    simp only at hs1 ho
    rcases tryAcquire_exW_spec { s with exW := s.exW ++ [id] } fast with
      ⟨hkeep, _⟩ | ⟨e0, rest, hsplit, hrest, hgr, _, _⟩
    · right
      rw [← hs1, hkeep]
      simp [he]
    · simp only at hsplit
      have hmem : e ∈ e0 :: rest := by
        rw [← hsplit]
        simp [he]
      rcases List.mem_cons.mp hmem with heq | htl
      · left
        rw [← ho, hgr, heq]
        simp
      · right
        rw [← hs1, hrest]
        exact htl
  | reqSh id fast =>
    simp only [lockStep, Option.some_inj] at h
    have hs1 := congrArg (fun p => (Prod.fst p).exW) h
    have ho := congrArg (fun p => (Prod.snd p).grantsEx) h
    simp only at hs1 ho
    rcases tryAcquire_exW_spec { s with shW := s.shW ++ [id] } fast with
      ⟨hkeep, _⟩ | ⟨e0, rest, hsplit, hrest, hgr, _, _⟩
    · right
      rw [← hs1, hkeep]
      exact he
    · simp only at hsplit
      have hmem : e ∈ e0 :: rest := by
        rw [← hsplit]
        exact he
      rcases List.mem_cons.mp hmem with heq | htl
      · left
        rw [← ho, hgr, heq]
        simp
      · right
        rw [← hs1, hrest]
        exact htl
  | osGrant =>
    simp only [lockStep] at h
    split at h <;> cases h <;> exact Or.inr he
  | runPending fast =>
    simp only [lockStep] at h
    split at h
    · cases h
    · rw [Option.some_inj] at h
      have hs1 := congrArg (fun p => (Prod.fst p).exW) h
      have ho := congrArg (fun p => (Prod.snd p).grantsEx) h
      simp only at hs1 ho
      rcases tryAcquire_exW_spec { s with pending := s.pending - 1 } fast with
        ⟨hkeep, _⟩ | ⟨e0, rest, hsplit, hrest, hgr, _, _⟩
      · right
        rw [← hs1, hkeep]
        exact he
      · simp only at hsplit
        have hmem : e ∈ e0 :: rest := by
          rw [← hsplit]
          exact he
        rcases List.mem_cons.mp hmem with heq | htl
        · left
          rw [← ho, hgr, heq]
          simp
        · right
          rw [← hs1, hrest]
          exact htl
  | release fast =>
    simp only [lockStep] at h
    split at h <;> (repeat' split at h) <;> cases h <;> right <;>
      first
        | exact he
        | (rw [releaseToIdle_exW]; exact he)

theorem lockStep_grantsEx_held (s : LockState) (ev : LEv) (s1 : LockState)
    (o : LockObs) (h : lockStep s ev = some (s1, o)) (hg : o.grantsEx ≠ []) :
    s1.st = .heldEx ∧ 1 ≤ s1.holders := by
  cases ev with
  | reqEx id fast =>
    simp only [lockStep, Option.some_inj] at h
    have hs1 := congrArg Prod.fst h
    have ho := congrArg Prod.snd h
    rcases tryAcquire_exW_spec { s with exW := s.exW ++ [id] } fast with
      ⟨_, hnil⟩ | ⟨e0, rest, _, _, _, hst, hh⟩
    · rw [ho] at hnil
      exact absurd hnil hg
    · rw [hs1] at hst hh
      have hst2 : s1.st = LSt.heldEx := hst
      have hh2 : s1.holders = 1 := hh
      exact ⟨hst2, by omega⟩
  | reqSh id fast =>
    simp only [lockStep, Option.some_inj] at h
    have hs1 := congrArg Prod.fst h
    have ho := congrArg Prod.snd h
    rcases tryAcquire_exW_spec { s with shW := s.shW ++ [id] } fast with
      ⟨_, hnil⟩ | ⟨e0, rest, _, _, _, hst, hh⟩
    · rw [ho] at hnil
      exact absurd hnil hg
    · rw [hs1] at hst hh
      have hst2 : s1.st = LSt.heldEx := hst
      have hh2 : s1.holders = 1 := hh
      exact ⟨hst2, by omega⟩
  | osGrant =>
    simp only [lockStep] at h
    split at h <;> cases h <;> exact absurd rfl hg
  | runPending fast =>
    simp only [lockStep] at h
    split at h
    · cases h
    · rw [Option.some_inj] at h
      have hs1 := congrArg Prod.fst h
      have ho := congrArg Prod.snd h
      rcases tryAcquire_exW_spec { s with pending := s.pending - 1 } fast with
        ⟨_, hnil⟩ | ⟨e0, rest, _, _, _, hst, hh⟩
      · rw [ho] at hnil
        exact absurd hnil hg
      · rw [hs1] at hst hh
        have hst2 : s1.st = LSt.heldEx := hst
        have hh2 : s1.holders = 1 := hh
        exact ⟨hst2, by omega⟩
  | release fast =>
    simp only [lockStep] at h
    split at h <;> (repeat' split at h) <;> cases h <;> exact absurd rfl hg

theorem lockStep_heldEx_inv (s : LockState) (ev : LEv) (s1 : LockState)
    (o : LockObs) (hst : s.st = .heldEx) (hh : 1 ≤ s.holders)
    (h : lockStep s ev = some (s1, o)) :
    o.grantsSh = [] ∧
      (o.released = true ∨ (s1.st = .heldEx ∧ 1 ≤ s1.holders)) := by
  cases ev with
  | reqEx id fast =>
    simp only [lockStep] at h
    rw [tryAcquire_heldEx_frozen { s with exW := s.exW ++ [id] } fast hst hh] at h
    cases h
    exact ⟨rfl, Or.inr ⟨hst, hh⟩⟩
  | reqSh id fast =>
    simp only [lockStep] at h
    rw [tryAcquire_heldEx_frozen { s with shW := s.shW ++ [id] } fast hst hh] at h
    cases h
    exact ⟨rfl, Or.inr ⟨hst, hh⟩⟩
  | osGrant =>
    simp only [lockStep, hst] at h
    cases h
  | runPending fast =>
    simp only [lockStep] at h
    split at h
    · cases h
    · rw [tryAcquire_heldEx_frozen { s with pending := s.pending - 1 } fast hst hh] at h
      cases h
      exact ⟨rfl, Or.inr ⟨hst, hh⟩⟩
  | release fast =>
    simp only [lockStep, hst] at h
    split at h
    · cases h
    · split at h
      · cases h
        refine ⟨rfl, Or.inr ⟨rfl, ?_⟩⟩
        show 1 ≤ s.holders - 1
        omega
      · cases h
        exact ⟨rfl, Or.inl rfl⟩

theorem lockRun_heldEx_release (tr : List LEv) :
    ∀ (s sf : LockState) (os : List LockObs), s.st = .heldEx → 1 ≤ s.holders →
    lockRun s tr = some (sf, os) →
    ∀ k ok, os.get? k = some ok → ok.grantsSh ≠ [] →
    ∃ r or, r < k ∧ os.get? r = some or ∧ or.released = true := by
  induction tr with
  | nil =>
    intro s sf os hst hh hrun k ok hk hg
    simp only [lockRun, Option.some_inj] at hrun
    have hos := congrArg Prod.snd hrun
    simp only at hos
    rw [← hos] at hk
    simp [List.get?] at hk
  | cons ev rest ih =>
    intro s sf os hst hh hrun k ok hk hg
    simp only [lockRun] at hrun
    cases hstep : lockStep s ev with
    | none =>
      simp only [hstep] at hrun
      cases hrun
    | some p =>
      obtain ⟨s1, o⟩ := p
      simp only [hstep] at hrun
      cases hrest : lockRun s1 rest with
      | none =>
        simp only [hrest] at hrun
        cases hrun
      | some q =>
        obtain ⟨s2, os2⟩ := q
        simp only [hrest, Option.some_inj, Prod.mk.injEq] at hrun
        obtain ⟨hsf, hos⟩ := hrun
        subst hos
        obtain ⟨hgs, hdisj⟩ := lockStep_heldEx_inv s ev s1 o hst hh hstep
        cases k with
        | zero =>
          cases hk
          exact absurd hgs hg
        | succ k =>
          rcases hdisj with hrel | ⟨hst1, hh1⟩
          · exact ⟨0, o, Nat.succ_pos k, rfl, hrel⟩
          · obtain ⟨r, or, hr, hro, hrel⟩ :=
              ih s1 s2 os2 hst1 hh1 hrest k ok hk hg
            exact ⟨r + 1, or, by omega, hro, hrel⟩

theorem lockRun_writer_blocks_sh (tr : List LEv) :
    ∀ (s sf : LockState) (os : List LockObs) (e : Nat), e ∈ s.exW →
    lockRun s tr = some (sf, os) →
    ∀ k ok x, os.get? k = some ok → x ∈ ok.grantsSh →
    ∃ g r og or, g < r ∧ r < k ∧ os.get? g = some og ∧ e ∈ og.grantsEx ∧
      os.get? r = some or ∧ or.released = true := by
  induction tr with
  | nil =>
    intro s sf os e he hrun k ok x hk hg
    simp only [lockRun, Option.some_inj] at hrun
    have hos := congrArg Prod.snd hrun
    simp only at hos
    rw [← hos] at hk
    simp [List.get?] at hk
  | cons ev rest ih =>
    intro s sf os e he hrun k ok x hk hg
    simp only [lockRun] at hrun
    cases hstep : lockStep s ev with
    | none =>
      simp only [hstep] at hrun
      cases hrun
    | some p =>
      obtain ⟨s1, o⟩ := p
      simp only [hstep] at hrun
      cases hrest : lockRun s1 rest with
      | none =>
        simp only [hrest] at hrun
        cases hrun
      | some q =>
        obtain ⟨s2, os2⟩ := q
        simp only [hrest, Option.some_inj, Prod.mk.injEq] at hrun
        obtain ⟨hsf, hos⟩ := hrun
        subst hos
        cases k with
        | zero =>
          cases hk
          have hex := lockStep_grantsSh_exW s ev s1 ok hstep
            (List.ne_nil_of_mem hg)
          rw [hex] at he
          simp at he
        | succ k =>
          rcases lockStep_exW_mem s ev s1 o e hstep he with hgr | he1
          · obtain ⟨hst1, hh1⟩ := lockStep_grantsEx_held s ev s1 o hstep
              (List.ne_nil_of_mem hgr)
            obtain ⟨r, or, hr, hro, hrel⟩ := lockRun_heldEx_release rest s1 s2
              os2 hst1 hh1 hrest k ok hk (List.ne_nil_of_mem hg)
            exact ⟨0, r + 1, o, or, by omega, by omega, rfl, hgr, hro, hrel⟩
          · obtain ⟨g, r, og, or, hgr2, hrk, hog, heog, hor, hrel⟩ :=
              ih s1 s2 os2 e he1 hrest k ok x hk hg
            exact ⟨g + 1, r + 1, og, or, by omega, by omega, hog, heog, hor,
              hrel⟩

/-- Claim C7: writer priority of the `FLock` state machine.  From any lock
state in which `e` sits in the exclusive-waiter queue, (1) along every
event trace, any shared grant (at index `k` of the observation list) is
strictly preceded by a grant of the exclusive lock to `e` (at `g`) and a
later release (at `r`), `g < r < k`; and (2) a shared acquisition arriving
now is queued and granted nothing. -/
theorem c7_writer_priority (e x : Nat) (s sf : LockState) (tr : List LEv)
    (os : List LockObs) (hrun : lockRun s tr = some (sf, os))
    (he : e ∈ s.exW) :
    (∀ k ok, os.get? k = some ok → x ∈ ok.grantsSh →
      ∃ g r og or, g < r ∧ r < k ∧ os.get? g = some og ∧ e ∈ og.grantsEx ∧
        os.get? r = some or ∧ or.released = true) ∧
    (∀ fast s1 o1, lockStep s (.reqSh x fast) = some (s1, o1) →
      o1.grantsSh = [] ∧ x ∈ s1.shW) := by
  constructor
  · intro k ok hk hg
    exact lockRun_writer_blocks_sh tr s sf os e he hrun k ok x hk hg
  · intro fast s1 o1 h1
    simp only [lockStep, Option.some_inj] at h1
    have hs := congrArg Prod.fst h1
    have ho := congrArg Prod.snd h1
    rcases tryAcquire_grantsSh_spec { s with shW := s.shW ++ [x] } fast with
      hnil | ⟨hex, _, _⟩
    · have hg1 : o1.grantsSh = [] := by
        rw [ho] at hnil
        exact hnil
      refine ⟨hg1, ?_⟩
      have hkeep := tryAcquire_shW_keep { s with shW := s.shW ++ [x] } fast hnil
      rw [hs] at hkeep
      have hs1 : s1.shW = s.shW ++ [x] := hkeep
      rw [hs1]
      simp
    · have hex2 : s.exW = [] := hex
      rw [hex2] at he
      simp at he

/-- Concrete instance of the writer-priority theorem on a five-event
trace: the shared grant of reader 5 at index 4 is preceded by a grant of
the queued writer 7 and a release. -/
theorem c7_writer_priority_witness :
    ∃ g r og or, g < r ∧ r < 4 ∧ c7Os.get? g = some og ∧ 7 ∈ og.grantsEx ∧
      c7Os.get? r = some or ∧ or.released = true :=
  (c7_writer_priority 7 5 c7S0 c7Sf c7Tr c7Os rfl (by decide)).1 4
    { grantsSh := [5] } rfl (by decide)

end GitCdn
